import Mathlib

/-!
Verification of the core game logic of `game.js` (a falling-block game with
inflow/outflow pieces, a sparse stacked-block grid, solid-row clearing and a
zone/timer end condition).  Every definition below is a direct shallow
embedding of the corresponding JavaScript function; modelling decisions are
recorded next to each definition.

General modelling notes:
* JavaScript numbers appearing here are all exact integers.  In particular
  `OVERDRAFT_Y = 600 * 0.8` and `EXCESS_CASH_Y = 600 * 0.2` evaluate exactly
  to the binary64 values 480 and 120 (the rounding error of 0.8 and 0.2 is
  small enough that the products round to the exact integers), and
  `COLS = 300 / 30 = 10`, `ROWS = 600 / 30 = 20` are exact.
* The sparse array `stackedBlocks` is modelled as a list of optional rows; a
  row is a list of optional cells.  A JavaScript `delete` leaves a hole,
  which reads back as `undefined` (falsy); a hole is modelled as `none`.
  Assignment to an index beyond the current length auto-extends the array
  with holes, which `setIdx` reproduces.
* Writes to a negative column index (possible in `placeBlock` only for a
  piece whose x is negative, which the collision rules prevent for any piece
  in play) would create a non-element string property in JavaScript.  Such a
  property is read back only by an equally negative index, which never
  happens on any code path that can observe it (the wall check returns
  before the stacked-cell loop whenever `newX < 0`).  The model therefore
  drops such writes, and reads of negative indices yield `none`.
* `Math.random()`-driven choices (shape, kind, spawn column) and
  `Date.now()` / `requestAnimationFrame` timestamps are modelled as inputs
  of the step function, universally quantified in the theorems.
-/

namespace LiqRush

/-- The two block kinds, `'inflow'` and `'outflow'` in the source. -/
inductive Kind where
  | inflow : Kind
  | outflow : Kind
deriving DecidableEq, Repr

/-- One row of `stackedBlocks`: a sparse array of cells. A cell holds the
kind of the block occupying it (the `{ type }` object in the source). -/
abbrev Row : Type := List (Option Kind)

/-- The `stackedBlocks` sparse array: an array of optional rows. -/
abbrev Board : Type := List (Option Row)

/-- `BOARD_WIDTH` -/
def BOARD_WIDTH : Nat := 300
/-- `BOARD_HEIGHT` -/
def BOARD_HEIGHT : Nat := 600
/-- `CELL_SIZE` -/
def CELL_SIZE : Nat := 30
/-- `COLS = BOARD_WIDTH / CELL_SIZE = 10` (exact) -/
def COLS : Nat := 10
/-- `ROWS = BOARD_HEIGHT / CELL_SIZE = 20` (exact) -/
def ROWS : Nat := 20
/-- `OVERDRAFT_Y = BOARD_HEIGHT * 0.8 = 480` (exact in binary64) -/
def OVERDRAFT_Y : Nat := 480
/-- `EXCESS_CASH_Y = BOARD_HEIGHT * 0.2 = 120` (exact in binary64) -/
def EXCESS_CASH_Y : Nat := 120
/-- `gracePeriodBlocks` (a `let` in the source, but never reassigned) -/
def gracePeriodBlocks : Nat := 5
/-- `WARNING_TIMER_DURATION` -/
def WARNING_TIMER_DURATION : Nat := 20000

/-- Assignment `l[i] = v` on a JavaScript array: sets index `i`,
auto-extending with holes (`d`) when `i` is beyond the current length. -/
def setIdx {α : Type} (d : α) : List α → Nat → α → List α
  | [], 0, v => [v]
  | [], n + 1, v => d :: setIdx d [] n v
  | _ :: t, 0, v => v :: t
  | h :: t, n + 1, v => h :: setIdx d t n v

/-- `delete stackedBlocks[i]`: punches a hole at `i`; an index beyond the
length is a no-op (the array length does not change). -/
def delIdx {α : Type} (d : α) : List α → Nat → List α
  | [], _ => []
  | _ :: t, 0 => d :: t
  | h :: t, n + 1 => h :: delIdx d t n

/-- Read `stackedBlocks[i]` (a hole or an out-of-range index is `none`). -/
def getRow (b : Board) (i : Nat) : Option Row := b.getD i none

/-- Read `stackedBlocks[r][c]` (any missing level yields `none`). -/
def getCell (b : Board) (r c : Nat) : Option Kind :=
  ((b.getD r none).getD []).getD c none

/-- Read a cell at possibly negative indices (see the negative-index note in
the file header: such reads always yield a falsy value on the code paths
that can reach them). -/
def getCellI (b : Board) (r c : Int) : Option Kind :=
  if 0 ≤ r ∧ 0 ≤ c then getCell b r.toNat c.toNat else none

/-- `BLOCK_SHAPES`: the 7-entry catalog (1 entered as `true`, 0 as `false`). -/
def BLOCK_SHAPES : List (List (List Bool)) :=
  [ [[true]],
    [[true, false], [true, true]],
    [[false, true], [true, true]],
    [[true, true], [true, false]],
    [[true, true], [false, true]],
    [[true, true, true], [false, true, false]],
    [[true, true], [true, true]] ]

/-- The `Block` class: shape matrix, kind, position and rotation counter. -/
structure Block where
  shape : List (List Bool)
  type : Kind
  x : Int
  y : Int
  rotation : Nat
deriving DecidableEq, Repr

/-- `rotate90(matrix)`: `rotated[i][j] = matrix[rows - 1 - j][i]` for
`i < matrix[0].length` and `j < matrix.length`. -/
def rotate90 (m : List (List Bool)) : List (List Bool) :=
  (List.range (m.getD 0 []).length).map (fun i =>
    (List.range m.length).map (fun j =>
      (m.getD (m.length - 1 - j) []).getD i false))

/-- The rotation loop shared by `getRotatedShape` and
`getRotatedShapeWithRotation`: apply `rotate90` `n` times. -/
def rotateN (sh : List (List Bool)) : Nat → List (List Bool)
  | 0 => sh
  | n + 1 => rotateN (rotate90 sh) n

/-- `getRotatedShape()`: the base shape rotated `rotation % 4` times. -/
def getRotatedShape (blk : Block) : List (List Bool) :=
  rotateN blk.shape (blk.rotation % 4)

/-- `getRotatedShapeWithRotation(rotation)` -/
def getRotatedShapeWithRotation (blk : Block) (rotation : Nat) : List (List Bool) :=
  rotateN blk.shape (rotation % 4)

/-- The shape used by `checkCollision`: the override rotation when one is
passed (`newRotation !== null`), the current rotation otherwise. -/
def candidateShape (blk : Block) (newRotation : Option Nat) : List (List Bool) :=
  match newRotation with
  | some nr => getRotatedShapeWithRotation blk nr
  | none => getRotatedShape blk

/-- `checkCollision(offsetX, offsetY, newRotation)`: wall check, floor
check, then the stacked-block scan (rows guarded to `[0, ROWS)`). -/
def checkCollision (board : Board) (blk : Block)
    (offsetX offsetY : Int) (newRotation : Option Nat) : Bool :=
  let shape := candidateShape blk newRotation
  let newX := blk.x + offsetX
  let newY := blk.y + offsetY
  if newX < 0 || newX + ((shape.getD 0 []).length : Int) > (COLS : Int) then
    true
  else if newY + (shape.length : Int) * (CELL_SIZE : Int) > (BOARD_HEIGHT : Int) then
    true
  else
    (List.range shape.length).any (fun row =>
      (List.range ((shape.getD row []).length)).any (fun col =>
        (shape.getD row []).getD col false &&
          (let boardRow : Int := Int.fdiv (newY + (row : Int) * (CELL_SIZE : Int)) (CELL_SIZE : Int)
           let boardCol : Int := newX + (col : Int)
           decide (0 ≤ boardRow) && decide (boardRow < (ROWS : Int)) &&
             (getCellI board boardRow boardCol).isSome)))

/-- `move(dx)`: apply the horizontal step only when the candidate position
does not collide; otherwise the piece is unchanged. -/
def move (board : Board) (blk : Block) (dx : Int) : Block :=
  if checkCollision board blk dx 0 none then blk else { blk with x := blk.x + dx }

/-- `rotate()`: advance the rotation counter by 1 mod 4 only when the
rotated shape at the current position does not collide. -/
def rotate (board : Board) (blk : Block) : Block :=
  let newRotation := (blk.rotation + 1) % 4
  if checkCollision board blk 0 0 (some newRotation) then blk
  else { blk with rotation := newRotation }

/-- `shouldStopPiece(block)`: moving down one cell would collide. -/
def shouldStopPiece (board : Board) (blk : Block) : Bool :=
  checkCollision board blk 0 (CELL_SIZE : Int) none

/-- Write one cell during placement:
`if (!stackedBlocks[boardRow]) stackedBlocks[boardRow] = [];`
`stackedBlocks[boardRow][boardCol] = { type }`.  A negative column would be
an unobservable non-element property (file header note) and is dropped. -/
def writeCell (b : Board) (r : Nat) (c : Int) (k : Kind) : Board :=
  if 0 ≤ c then
    setIdx none b r (some (setIdx none ((b.getD r none).getD []) c.toNat (some k)))
  else b

/-- The coordinate pairs `(row, col)` visited by the nested loops of
`placeBlock` and `checkCollision` (row-major, per-row length). -/
def shapeCoords (shape : List (List Bool)) : List (Nat × Nat) :=
  (List.range shape.length).flatMap (fun r =>
    (List.range ((shape.getD r []).length)).map (fun c => (r, c)))

/-- One iteration of the `placeBlock` marking loop.  The state is the board
together with the two flags `hasExcessCashBlocks` / `hasOverdraftBlocks`;
`n` is the global `blocksPlaced` counter read before its increment. -/
def placeStep (blk : Block) (n : Nat) (acc : Board × Bool × Bool)
    (rc : Nat × Nat) : Board × Bool × Bool :=
  let shape := getRotatedShape blk
  if (shape.getD rc.1 []).getD rc.2 false then
    let boardRow : Int := Int.fdiv (blk.y + (rc.1 : Int) * (CELL_SIZE : Int)) (CELL_SIZE : Int)
    let boardCol : Int := blk.x + (rc.2 : Int)
    let blockY : Int := blk.y + (rc.1 : Int) * (CELL_SIZE : Int)
    if 0 ≤ boardRow ∧ boardRow < (ROWS : Int) then
      (writeCell acc.1 boardRow.toNat boardCol blk.type,
       acc.2.1 || decide (blockY < (EXCESS_CASH_Y : Int)),
       acc.2.2 || (decide ((OVERDRAFT_Y : Int) < blockY) && decide (gracePeriodBlocks ≤ n)))
    else acc
  else acc

/-- The marking loop of `placeBlock` (everything before `blocksPlaced++`). -/
def placeScan (b : Board) (blk : Block) (n : Nat) : Board × Bool × Bool :=
  (shapeCoords (getRotatedShape blk)).foldl (placeStep blk n) (b, false, false)

/-- The board right after the marking loop of `placeBlock`, before
`clearSolidLayers` runs. -/
def markedBoard (b : Board) (blk : Block) (n : Nat) : Board :=
  (placeScan b blk n).1

/-- Is a (possibly absent) row solid, i.e. present with all 10 columns
occupied?  This is the inner loop shared by `checkSolidLayerAboveOverdraft`
and `clearSolidLayers` (an absent row is skipped, i.e. not solid). -/
def isSolidOpt (orow : Option Row) : Bool :=
  match orow with
  | none => false
  | some r => (List.range COLS).all (fun c => (r.getD c none).isSome)

/-- Is `stackedBlocks[row]` present and solid? -/
def isSolidRow (b : Board) (row : Nat) : Bool :=
  isSolidOpt (getRow b row)

/-- `checkSolidLayerAboveOverdraft()`: some row with index below
`overdraftRow = Math.floor(480 / 30) = 16` is solid. -/
def checkSolidLayerAboveOverdraft (b : Board) : Bool :=
  (List.range 16).any (fun row => isSolidRow b row)

/-- The inner shift of `clearSolidLayers`: for `row` from `n - 1` down to 0,
if `stackedBlocks[row]` is present, copy it to `row + 1` and delete `row`. -/
def shiftRowsAbove (b : Board) : Nat → Board
  | 0 => b
  | c + 1 =>
    shiftRowsAbove
      (match getRow b c with
       | some r => delIdx none (setIdx none b (c + 1) (some r)) c
       | none => b) c

/-- Processing of one cleared row: shift all rows above it down by one, then
`if (stackedBlocks[clearedRow]) delete stackedBlocks[clearedRow]`. -/
def processOne (b : Board) (clearedRow : Nat) : Board :=
  let b1 := shiftRowsAbove b clearedRow
  if (getRow b1 clearedRow).isSome then delIdx none b1 clearedRow else b1

/-- The `+1` adjustment applied to every entry of `rowsToClear` that lies
above the just-processed row. -/
def adjustRows (clearedRow : Nat) (rows : List Nat) : List Nat :=
  rows.map (fun r => if r < clearedRow then r + 1 else r)

/-- The `for (let clearedRow of rowsToClear)` loop: iterate by position over
the (element-mutated) array.  `n` is the fixed iteration count
(`rowsToClear.length`), `k` the current position. -/
def clearIter : Nat → Nat → Board → List Nat → Board
  | 0, _, b, _ => b
  | n + 1, k, b, rows =>
    let clearedRow := rows.getD k 0
    clearIter n (k + 1) (processOne b clearedRow) (adjustRows clearedRow rows)

/-- The list of solid row indices collected by `clearSolidLayers`.  The scan
over `row = 0 .. ROWS - 1` produces it already in ascending order, so the
`sort((a, b) => a - b)` in the source is the identity on it. -/
def solidRows (b : Board) : List Nat :=
  (List.range ROWS).filter (fun row => isSolidRow b row)

/-- `clearSolidLayers()` -/
def clearSolidLayers (b : Board) : Board :=
  let rowsToClear := solidRows b
  clearIter rowsToClear.length 0 b rowsToClear

/-- The result of `placeBlock`: the updated board together with the local
flags of the marking loop (computed and then unused in the source) and the
updated globals. -/
structure PlaceResult where
  board : Board
  hasExcessCashBlocks : Bool
  hasOverdraftBlocks : Bool
  blocksPlaced : Nat
  hasSolidLayerAboveOverdraft : Bool
deriving Repr

/-- `placeBlock(block)` with the global `blocksPlaced` counter `n` threaded
explicitly: mark the cells (computing the zone flags with the pre-increment
counter), increment `blocksPlaced`, run `clearSolidLayers`, then recompute
`hasSolidLayerAboveOverdraft`. -/
def placeBlock (b : Board) (blk : Block) (n : Nat) : PlaceResult :=
  let scan := placeScan b blk n
  let b2 := clearSolidLayers scan.1
  { board := b2
    hasExcessCashBlocks := scan.2.1
    hasOverdraftBlocks := scan.2.2
    blocksPlaced := n + 1
    hasSolidLayerAboveOverdraft := checkSolidLayerAboveOverdraft b2 }

/-- `getTopBlockPosition()`: the minimum pixel y (`row * CELL_SIZE`) over
all occupied stacked cells; `null` when the board is empty. -/
def getTopBlockPosition (b : Board) : Option Nat :=
  let topY :=
    (List.range ROWS).foldl (fun acc row =>
      match getRow b row with
      | some r =>
        (List.range COLS).foldl (fun acc2 col =>
          if (r.getD col none).isSome then
            if row * CELL_SIZE < acc2 then row * CELL_SIZE else acc2
          else acc2) acc
      | none => acc) BOARD_HEIGHT
  if topY = BOARD_HEIGHT then none else some topY

/-- The game-over message of the spawn-collision end condition. -/
def msgStackTooHigh : String := "Stack Too High!"
/-- The game-over message of the expired warning timer. -/
def msgTimeLimitExceeded : String := "Time Limit Exceeded!"

/-- The mutable globals of the controller (canvas/DOM state excluded). -/
structure GameState where
  board : Board
  currentPiece : Option Block
  warningTimer : Option Nat
  hasSolidLayerAboveOverdraft : Bool
  gameRunning : Bool
  endMessage : Option String
  blocksPlaced : Nat
  dropTime : Nat
  lastTime : Nat
deriving DecidableEq, Repr

/-- `endGame(message)`: stop the game and record the message (no-op when the
game is not running). -/
def endGame (message : String) (s : GameState) : GameState :=
  if s.gameRunning then
    { s with gameRunning := false, endMessage := some message }
  else s

/-- Lines 510-540 of `gameLoop`: recompute `hasSolidLayerAboveOverdraft`,
and when it holds inspect the top stacked cell; outside the safe band arm
the 20000 ms deadline (if not armed) and end the game when `now` has
reached it; inside the safe band cancel the deadline. -/
def timerPhase (now : Nat) (s : GameState) : GameState :=
  let hasSolid := checkSolidLayerAboveOverdraft s.board
  let s1 := { s with hasSolidLayerAboveOverdraft := hasSolid }
  if hasSolid then
    match getTopBlockPosition s1.board with
    | some topBlockY =>
      if OVERDRAFT_Y < topBlockY || topBlockY < EXCESS_CASH_Y then
        let wt := match s1.warningTimer with
          | none => now + WARNING_TIMER_DURATION
          | some w => w
        let s2 := { s1 with warningTimer := some wt }
        if wt ≤ now then endGame msgTimeLimitExceeded s2 else s2
      else { s1 with warningTimer := none }
    | none => s1
  else s1

/-- Lines 483-508 of `gameLoop`: accumulate the frame delta into the drop
timer and, when the drop interval has elapsed, either land the current piece
(place it, spawn `nextPiece`, and end the game when the spawned piece is
immediately stopped) or advance it one cell, resetting the drop timer. -/
def dropPhase (time : Nat) (nextPiece : Block) (downHeld : Bool)
    (s : GameState) : GameState :=
  let delta := time - s.lastTime
  let dropTime1 := s.dropTime + delta
  let dropInterval : Nat := if downHeld then 50 else 500
  let s1 : GameState := { s with lastTime := time, dropTime := dropTime1 }
  if dropInterval ≤ dropTime1 then
    match s1.currentPiece with
    | none => { s1 with dropTime := 0 }
    | some p =>
      if shouldStopPiece s1.board p then
        let pr := placeBlock s1.board p s1.blocksPlaced
        let s3 : GameState :=
          { s1 with board := pr.board, blocksPlaced := pr.blocksPlaced,
                    hasSolidLayerAboveOverdraft := pr.hasSolidLayerAboveOverdraft,
                    currentPiece := some nextPiece }
        if shouldStopPiece pr.board nextPiece then endGame msgStackTooHigh s3
        else { s3 with dropTime := 0 }
      else { s1 with currentPiece := some { p with y := p.y + (CELL_SIZE : Int) }, dropTime := 0 }
  else s1

/-- One invocation of `gameLoop(time)` (drawing and DOM updates dropped).
`nextPiece` stands for the `createNewPiece()` result of this tick (randomness
as an input: the model quantifies over every possible spawned block, a
superset of the blocks the generator can produce), `downHeld` for
`keys['ArrowDown']`, `now` for `Date.now()`.  An `endGame` inside the drop
phase returns from the loop before the timer phase runs. -/
def gameStep (time : Nat) (nextPiece : Block) (downHeld : Bool) (now : Nat)
    (s : GameState) : GameState :=
  if s.gameRunning then
    let s2 := dropPhase time nextPiece downHeld s
    if s2.gameRunning then timerPhase now s2 else s2
  else s

/-- An external event: one animation frame, or one arrow-key press.  The
keydown handler ignores input while the game is not running. -/
inductive GInput where
  | tick (time : Nat) (nextPiece : Block) (downHeld : Bool) (now : Nat) : GInput
  | keyLeft : GInput
  | keyRight : GInput
  | keyUp : GInput

/-- Apply one external event to the game state. -/
def applyInput (s : GameState) : GInput → GameState
  | GInput.tick time nextPiece downHeld now => gameStep time nextPiece downHeld now s
  | GInput.keyLeft =>
    if s.gameRunning then
      { s with currentPiece := s.currentPiece.map (fun p => move s.board p (-1)) }
    else s
  | GInput.keyRight =>
    if s.gameRunning then
      { s with currentPiece := s.currentPiece.map (fun p => move s.board p 1) }
    else s
  | GInput.keyUp =>
    if s.gameRunning then
      { s with currentPiece := s.currentPiece.map (fun p => rotate s.board p) }
    else s

/-- A run: fold a sequence of external events over a starting state. -/
def run (s : GameState) (l : List GInput) : GameState := l.foldl applyInput s

/-- `startGame()` restricted to the modelled state (`piece` is the random
first piece). -/
def startGame (piece : Block) (startTime : Nat) (s : GameState) : GameState :=
  { s with gameRunning := true, board := [], blocksPlaced := 0,
           warningTimer := none, hasSolidLayerAboveOverdraft := false,
           currentPiece := some piece, dropTime := 0, lastTime := startTime,
           endMessage := none }

/-! ### Variant A (percentage balance), modelled from the spec

The repository contains no Variant A code: `game.js` implements only the
zone/stack variant (its `updateBalanceDisplay` even shows the block count
"instead").  The definitions below are therefore modelled from the spec. -/

/-- The Variant A end-condition message named by the spec. -/
def msgBalanceOutOfRange : String := "balance out of range"

/-- Modelled from the spec: the Variant A balance update.  Missing from the
source (no percentage-balance code exists in `game.js`).  Spec: the
placement report includes `cellCount`; the controller updates
`balance += cellCount * 2` (Inflow) or `balance -= cellCount * 2` (Outflow),
clamped to `[0, 100]`. -/
def variantABalanceAfter (balance : Int) (kind : Kind) (cellCount : Nat) : Int :=
  let delta : Int := match kind with
    | Kind.inflow => 2 * (cellCount : Int)
    | Kind.outflow => -(2 * (cellCount : Int))
  max 0 (min 100 (balance + delta))

/-- Modelled from the spec: one Variant A placement.  Missing from the
source.  Spec: after every placement, if `balance < 40 or balance > 60`,
transition to `Ended` immediately (cause: "balance out of range"), with no
grace period and no timer.  Returns the new balance and the end cause. -/
def variantAPlace (balance : Int) (kind : Kind) (cellCount : Nat) :
    Int × Option String :=
  let b2 := variantABalanceAfter balance kind cellCount
  (b2, if b2 < 40 ∨ 60 < b2 then some msgBalanceOutOfRange else none)

/-! ### Observation functions used by the theorems -/

/-- The board row index a shape row maps to:
`Math.floor((block.y + row * CELL_SIZE) / CELL_SIZE)`. -/
def rowOf (blk : Block) (r : Nat) : Int :=
  Int.fdiv (blk.y + (r : Int) * (CELL_SIZE : Int)) (CELL_SIZE : Int)

/-- The board column index a shape column maps to: `block.x + col`. -/
def colOf (blk : Block) (c : Nat) : Int := blk.x + (c : Int)

/-- The shape entry at `(r, c)` of a matrix (`false` when out of range). -/
def cellTrue (shape : List (List Bool)) (r c : Nat) : Bool :=
  (shape.getD r []).getD c false

/-- The number of `true` entries of a shape matrix. -/
def countTrue (shape : List (List Bool)) : Nat :=
  ((shapeCoords shape).filter (fun rc => cellTrue shape rc.1 rc.2)).length

/-- The occupied positions of the 20 x 10 grid. -/
def gridCells (b : Board) : Finset (Nat × Nat) :=
  (Finset.range ROWS ×ˢ Finset.range COLS).filter
    (fun rc => (getCell b rc.1 rc.2).isSome)

/-- How many grid cells are occupied. -/
def cellsInGrid (b : Board) : Nat := (gridCells b).card

/-- How many grid rows contain at least one occupied cell. -/
def filledRows (b : Board) : Nat :=
  ((List.range ROWS).filter (fun r =>
    (List.range COLS).any (fun c => (getCell b r c).isSome))).length

/-- The bounds invariant of the grid: at most 20 rows, each at most 10
cells wide (so every occupied cell has row < 20 and column < 10). -/
def InBounds (b : Board) : Bool :=
  decide (b.length ≤ ROWS) &&
    b.all (fun orow => match orow with
      | none => true
      | some r => decide (r.length ≤ COLS))

/-- A well-formed shape matrix: nonempty, positive width, all rows of the
width of row 0.  Every catalog entry satisfies this, and `rotate90`
preserves it. -/
def RectShape (sh : List (List Bool)) : Prop :=
  0 < sh.length ∧ 0 < (sh.getD 0 []).length ∧
    ∀ row ∈ sh, row.length = (sh.getD 0 []).length

instance (sh : List (List Bool)) : Decidable (RectShape sh) := by
  unfold RectShape; infer_instance

/-- Closed form of `shiftRowsAbove b n` as a function of row index `j`:
row 0 becomes empty, rows `1 .. n - 1` receive the row above them, the slot
`n` receives row `n - 1` when that row is present and otherwise keeps its
own content, and rows beyond `n` are untouched (for `n = 0` the shift is the
identity). -/
def shiftSpec (b : Board) (n j : Nat) : Option Row :=
  if n = 0 then getRow b j
  else if j = 0 then none
  else if j < n then getRow b (j - 1)
  else if j = n then
    match getRow b (n - 1) with
    | some r => some r
    | none => getRow b n
  else getRow b j

/-- No row strictly above the overdraft row (`overdraftRow = 16`) is solid:
the board condition equivalent to `checkSolidLayerAboveOverdraft` being
false. -/
def NoSolidAboveOverdraft (b : Board) : Prop :=
  ∀ j, j < 16 → isSolidRow b j = false

instance (b : Board) : Decidable (NoSolidAboveOverdraft b) := by
  unfold NoSolidAboveOverdraft; infer_instance

/-- The marking-loop iteration at shape coordinate `rc` writes grid cell
`(r, c)`: its entry is `true`, its board row passes the `[0, ROWS)` guard,
and it maps to `(r, c)`. -/
def writesTo (blk : Block) (rc : Nat × Nat) (r c : Nat) : Prop :=
  cellTrue (getRotatedShape blk) rc.1 rc.2 = true ∧
    0 ≤ rowOf blk rc.1 ∧ rowOf blk rc.1 < (ROWS : Int) ∧
    (rowOf blk rc.1).toNat = r ∧ colOf blk rc.2 = (c : Int)

instance (blk : Block) (rc : Nat × Nat) (r c : Nat) :
    Decidable (writesTo blk rc r c) := by
  unfold writesTo; infer_instance

/-- The per-coordinate condition feeding `hasExcessCashBlocks`. -/
def excessCond (blk : Block) (rc : Nat × Nat) : Bool :=
  cellTrue (getRotatedShape blk) rc.1 rc.2 &&
    (decide (0 ≤ rowOf blk rc.1) && decide (rowOf blk rc.1 < (ROWS : Int))) &&
    decide (blk.y + (rc.1 : Int) * (CELL_SIZE : Int) < (EXCESS_CASH_Y : Int))

/-- The per-coordinate condition feeding `hasOverdraftBlocks` (`n` is the
pre-increment `blocksPlaced`). -/
def overdraftCond (blk : Block) (n : Nat) (rc : Nat × Nat) : Bool :=
  cellTrue (getRotatedShape blk) rc.1 rc.2 &&
    (decide (0 ≤ rowOf blk rc.1) && decide (rowOf blk rc.1 < (ROWS : Int))) &&
    (decide ((OVERDRAFT_Y : Int) < blk.y + (rc.1 : Int) * (CELL_SIZE : Int)) &&
      decide (gracePeriodBlocks ≤ n))

/-- The grid positions written by the marking loop, in loop order. -/
def targetList (blk : Block) : List (Nat × Nat) :=
  (((shapeCoords (getRotatedShape blk)).filter
      (fun rc => cellTrue (getRotatedShape blk) rc.1 rc.2)).map
    (fun rc => ((rowOf blk rc.1).toNat, (colOf blk rc.2).toNat)))

/-! ### Concrete boards, pieces and states used to evaluate the model -/

/-- A fully solid row (all 10 columns occupied). -/
def rowFull : Row := List.replicate 10 (some Kind.inflow)

/-- A board whose only content is a single cell at row 18, column 0, and a
fully solid row 19. -/
def exC1Board : Board :=
  List.replicate 18 none ++ [some [some Kind.inflow], some rowFull]

/-- A board whose row 19 has columns 0-8 occupied (one gap at column 9). -/
def exC3Board : Board :=
  List.replicate 19 none ++ [some (List.replicate 9 (some Kind.inflow))]

/-- A 1x1 piece hovering over the gap of `exC3Board` (x = 9, y = 570). -/
def exC3Piece : Block :=
  { shape := [[true]], type := Kind.inflow, x := 9, y := 570, rotation := 0 }

/-- A 1x1 piece resting on the floor at column 0 of an empty board. -/
def exSmallPiece : Block :=
  { shape := [[true]], type := Kind.inflow, x := 0, y := 570, rotation := 0 }

/-- A freshly spawned 1x1 piece (column 0, top row). -/
def exNextPiece : Block :=
  { shape := [[true]], type := Kind.inflow, x := 0, y := 0, rotation := 0 }

/-- A free-standing 1x1 piece used for rotation runs (x = 2, y = 60). -/
def exC5Piece : Block :=
  { shape := [[true]], type := Kind.inflow, x := 2, y := 60, rotation := 0 }

/-- A 1x2 piece whose right column pokes past the wall (x = 9, width 2). -/
def exC6Piece : Block :=
  { shape := [[true, true]], type := Kind.outflow, x := 9, y := 0, rotation := 0 }

/-- Board of the stale-deadline run: a lone top cell at row 3 (pixel y 90,
above the excess-cash line), solid rows 14 and 15, and nothing else. -/
def exC2Board : Board :=
  [none, none, none, some [some Kind.inflow],
   none, none, none, none, none, none, none, none, none, none,
   some rowFull, some rowFull, none, none, none, none]

/-- A 1x1 piece about to land at the bottom (x = 5, y = 570). -/
def exC2Piece : Block :=
  { shape := [[true]], type := Kind.outflow, x := 5, y := 570, rotation := 0 }

/-- Start state of the stale-deadline run. -/
def exC2State : GameState :=
  { board := exC2Board, currentPiece := some exC2Piece, warningTimer := none,
    hasSolidLayerAboveOverdraft := true, gameRunning := true,
    endMessage := none, blocksPlaced := 7, dropTime := 0, lastTime := 0 }

/-- A state with an armed deadline, a solid row 15 and the stack top at
row 15 (pixel y 450, inside the safe band). -/
def exC2WitState : GameState :=
  { board := List.replicate 15 none ++ [some rowFull, none, none, none, none],
    currentPiece := some exNextPiece, warningTimer := some 7000,
    hasSolidLayerAboveOverdraft := true, gameRunning := true,
    endMessage := none, blocksPlaced := 12, dropTime := 0, lastTime := 0 }

/-- A running state whose only stacked cell is at row 18 (pixel y 540,
below the overdraft line) with no solid row anywhere. -/
def exC4State : GameState :=
  { board := List.replicate 18 none ++ [some [some Kind.outflow], none],
    currentPiece := some exNextPiece, warningTimer := none,
    hasSolidLayerAboveOverdraft := false, gameRunning := true,
    endMessage := none, blocksPlaced := 6, dropTime := 0, lastTime := 0 }

end LiqRush

/-! ## Basic index lemmas for the sparse-array operations -/

namespace LiqRush

lemma getD_setIdx {α : Type} (d : α) :
    ∀ (i : Nat) (l : List α) (v : α) (j : Nat),
      (setIdx d l i v).getD j d = if j = i then v else l.getD j d := by
  intro i
  induction i with
  | zero =>
    intro l v j
    cases l with
    | nil => cases j <;> simp [setIdx]
    | cons h t => cases j <;> simp [setIdx]
  | succ i ih =>
    intro l v j
    cases l with
    | nil =>
      cases j with
      | zero => simp [setIdx]
      | succ j =>
        have := ih [] v j
        simp only [setIdx, List.getD_cons_succ, this]
        by_cases hji : j = i <;> simp [hji]
    | cons h t =>
      cases j with
      | zero => simp [setIdx]
      | succ j =>
        have := ih t v j
        simp only [setIdx, List.getD_cons_succ, this]
        by_cases hji : j = i <;> simp [hji]

lemma getD_delIdx {α : Type} (d : α) :
    ∀ (i : Nat) (l : List α) (j : Nat),
      (delIdx d l i).getD j d = if j = i then d else l.getD j d := by
  intro i
  induction i with
  | zero =>
    intro l j
    cases l with
    | nil => cases j <;> simp [delIdx]
    | cons h t => cases j <;> simp [delIdx]
  | succ i ih =>
    intro l j
    cases l with
    | nil => cases j <;> simp [delIdx]
    | cons h t =>
      cases j with
      | zero => simp [delIdx]
      | succ j =>
        have := ih t j
        simp only [delIdx, List.getD_cons_succ, this]
        by_cases hji : j = i <;> simp [hji]

lemma length_setIdx {α : Type} (d : α) :
    ∀ (i : Nat) (l : List α) (v : α),
      (setIdx d l i v).length = max l.length (i + 1) := by
  intro i
  induction i with
  | zero =>
    intro l v
    cases l <;> simp [setIdx]
  | succ i ih =>
    intro l v
    cases l with
    | nil => simp [setIdx, ih]
    | cons h t => simp [setIdx, ih]; omega

lemma length_delIdx {α : Type} (d : α) :
    ∀ (i : Nat) (l : List α), (delIdx d l i).length = l.length := by
  intro i
  induction i with
  | zero => intro l; cases l <;> simp [delIdx]
  | succ i ih => intro l; cases l <;> simp [delIdx, ih]

lemma getRow_setIdx (b : Board) (i : Nat) (v : Option Row) (j : Nat) :
    getRow (setIdx none b i v) j = if j = i then v else getRow b j := by
  simp only [getRow, getD_setIdx]

lemma getRow_delIdx (b : Board) (i : Nat) (j : Nat) :
    getRow (delIdx none b i) j = if j = i then none else getRow b j := by
  simp only [getRow, getD_delIdx]

/-! ## Row-clearing: where each output row of the shift comes from -/

/-- Every row of `shiftRowsAbove b n` is empty, the untouched original row
(beyond `n`, or exactly at `n` when the row above is absent), or the
original row one index above (at `1 .. n`). -/
lemma shift_source : ∀ (n : Nat) (b : Board) (j : Nat),
    getRow (shiftRowsAbove b n) j = none ∨
    (n < j ∧ getRow (shiftRowsAbove b n) j = getRow b j) ∨
    (j ≠ 0 ∧ j ≤ n ∧ getRow (shiftRowsAbove b n) j = getRow b (j - 1)) ∨
    (j = n ∧ getRow (shiftRowsAbove b n) j = getRow b j) := by
  intro n
  induction n with
  | zero =>
    intro b j
    by_cases hj : j = 0
    · exact Or.inr (Or.inr (Or.inr ⟨hj, rfl⟩))
    · exact Or.inr (Or.inl ⟨Nat.pos_of_ne_zero hj, rfl⟩)
  | succ n ih =>
    intro b j
    rw [shiftRowsAbove]
    cases hbn : getRow b n with
    | none =>
      rcases ih b j with h | ⟨h1, h2⟩ | ⟨h1, h2, h3⟩ | ⟨h1, h2⟩
      · exact Or.inl h
      · by_cases hj : j = n + 1
        · exact Or.inr (Or.inr (Or.inr ⟨hj, h2⟩))
        · exact Or.inr (Or.inl ⟨by omega, h2⟩)
      · exact Or.inr (Or.inr (Or.inl ⟨h1, by omega, h3⟩))
      · refine Or.inl ?_
        rw [h2, h1]
        exact hbn
    | some r =>
      have hb1 : ∀ k, getRow (delIdx none (setIdx none b (n + 1) (some r)) n) k =
          if k = n then none else if k = n + 1 then some r else getRow b k := by
        intro k
        rw [getRow_delIdx, getRow_setIdx]
      rcases ih (delIdx none (setIdx none b (n + 1) (some r)) n) j with
        h | ⟨h1, h2⟩ | ⟨h1, h2, h3⟩ | ⟨h1, h2⟩
      · exact Or.inl h
      · by_cases hj : j = n + 1
        · refine Or.inr (Or.inr (Or.inl ⟨by omega, by omega, ?_⟩))
          rw [h2, hb1 j, if_neg (by omega), if_pos hj, hj]
          simpa using hbn.symm
        · refine Or.inr (Or.inl ⟨by omega, ?_⟩)
          rw [h2, hb1 j, if_neg (by omega), if_neg hj]
      · refine Or.inr (Or.inr (Or.inl ⟨h1, by omega, ?_⟩))
        rw [h3, hb1 (j - 1), if_neg (by omega), if_neg (by omega)]
      · refine Or.inl ?_
        rw [h2, h1, hb1 n, if_pos rfl]

/-- After `processOne b c`, the slot of the cleared row is always empty
(the shift either left the solid row there or moved the row above into it,
and the trailing `delete` removes whatever is present). -/
lemma processOne_cleared (b : Board) (c : Nat) :
    getRow (processOne b c) c = none := by
  unfold processOne
  by_cases h : (getRow (shiftRowsAbove b c) c).isSome
  · rw [if_pos h, getRow_delIdx, if_pos rfl]
  · rw [if_neg h]
    cases hg : getRow (shiftRowsAbove b c) c with
    | none => rfl
    | some r => rw [hg] at h; simp at h

/-- Every other row of `processOne b c` is empty, an untouched original row
(beyond `c`), or the original row one index above (at `1 .. c`). -/
lemma processOne_source (b : Board) (c j : Nat) (hj : j ≠ c) :
    getRow (processOne b c) j = none ∨
    (c < j ∧ getRow (processOne b c) j = getRow b j) ∨
    (j ≠ 0 ∧ j ≤ c ∧ getRow (processOne b c) j = getRow b (j - 1)) := by
  have hsh : getRow (processOne b c) j = getRow (shiftRowsAbove b c) j := by
    unfold processOne
    by_cases h : (getRow (shiftRowsAbove b c) c).isSome
    · rw [if_pos h, getRow_delIdx, if_neg hj]
    · rw [if_neg h]
  rcases shift_source c b j with h | ⟨h1, h2⟩ | ⟨h1, h2, h3⟩ | ⟨h1, h2⟩
  · exact Or.inl (hsh.trans h)
  · exact Or.inr (Or.inl ⟨h1, hsh.trans h2⟩)
  · exact Or.inr (Or.inr ⟨h1, h2, hsh.trans h3⟩)
  · exact absurd h1 hj

/-! ## The `for ... of rowsToClear` loop with its index adjustment

The adjustment `rowsToClear[i]++` touches only entries smaller than the row
just processed.  Because the collected list is strictly ascending and
processed in order, every entry still to be read is strictly larger than
all rows processed so far, so the adjustment never changes a value before
it is read: the loop is a plain left fold of `processOne` over the
originally collected list. -/

lemma clearIter_eq : ∀ (l : List Nat), l.Pairwise (· < ·) →
    ∀ (k : Nat) (rows : List Nat) (b : Board),
      (∀ i, i < l.length → rows.getD (k + i) 0 = l.getD i 0) →
      clearIter l.length k b rows = l.foldl processOne b := by
  intro l
  induction l with
  | nil => intro _ k rows b _; rfl
  | cons c t ih =>
    intro hp k rows b hmatch
    have hc : rows.getD k 0 = c := by simpa using hmatch 0 (by simp)
    rw [List.length_cons, clearIter, hc, List.foldl_cons]
    apply ih (List.pairwise_cons.mp hp).2 (k + 1) (adjustRows c rows)
    intro i hi
    have horig : rows.getD (k + 1 + i) 0 = t.getD i 0 := by
      have := hmatch (i + 1) (by simpa using Nat.succ_lt_succ hi)
      have harith : k + (i + 1) = k + 1 + i := by omega
      rw [harith] at this
      simpa using this
    have hmem : t.getD i 0 ∈ t := by
      rw [List.getD_eq_getElem t 0 hi]
      exact List.getElem_mem hi
    have hgt : c < t.getD i 0 := (List.pairwise_cons.mp hp).1 _ hmem
    have hrange : k + 1 + i < rows.length := by
      by_contra hcon
      rw [List.getD_eq_default rows 0 (by omega)] at horig
      omega
    unfold adjustRows
    rw [List.getD_eq_getElem _ 0 (by simpa using hrange), List.getElem_map]
    have : rows[k + 1 + i] = t.getD i 0 := by
      rw [← List.getD_eq_getElem rows 0 hrange]
      exact horig
    rw [this, if_neg (by omega)]

/-- After the whole clearing pass, no grid row is solid: shifting moves row
contents without changing them, every collected solid row slot is cleared
when processed, and no solid row is ever copied before its turn. -/
lemma foldl_no_solid : ∀ (l : List Nat) (b : Board),
    l.Pairwise (· < ·) →
    (∀ j, j < ROWS → isSolidRow b j = true → j ∈ l) →
    ∀ j, j < ROWS → isSolidRow (l.foldl processOne b) j = false := by
  intro l
  induction l with
  | nil =>
    intro b _ hcov j hj
    cases hs : isSolidRow b j with
    | false => simpa using hs
    | true => exact absurd (hcov j hj hs) (List.not_mem_nil _)
  | cons c t ih =>
    intro b hp hcov j hj
    rw [List.foldl_cons]
    refine ih (processOne b c) (List.pairwise_cons.mp hp).2 ?_ j hj
    intro j2 hj2 hs2
    by_cases hjc : j2 = c
    · rw [hjc] at hs2
      unfold isSolidRow at hs2
      rw [processOne_cleared] at hs2
      simp [isSolidOpt] at hs2
    · rcases processOne_source b c j2 hjc with h | ⟨h1, h2⟩ | ⟨h1, h2, h3⟩
      · unfold isSolidRow at hs2
        rw [h] at hs2
        simp [isSolidOpt] at hs2
      · have hb : isSolidRow b j2 = true := by
          unfold isSolidRow at hs2 ⊢
          rw [← h2]
          exact hs2
        rcases List.mem_cons.mp (hcov j2 hj2 hb) with he | ht
        · exact absurd he hjc
        · exact ht
      · have hb : isSolidRow b (j2 - 1) = true := by
          unfold isSolidRow at hs2 ⊢
          rw [← h3]
          exact hs2
        rcases List.mem_cons.mp (hcov (j2 - 1) (by omega) hb) with he | ht
        · omega
        · have := (List.pairwise_cons.mp hp).1 _ ht
          omega

lemma solidRows_pairwise (b : Board) : (solidRows b).Pairwise (· < ·) :=
  (List.pairwise_lt_range _).filter _

lemma mem_solidRows (b : Board) (j : Nat) :
    j ∈ solidRows b ↔ j < ROWS ∧ isSolidRow b j = true := by
  simp [solidRows, List.mem_filter, List.mem_range]

/-- The clearing loop is a plain fold of `processOne` over the ascending
list of solid row indices. -/
lemma clearSolidLayers_eq_foldl (b : Board) :
    clearSolidLayers b = (solidRows b).foldl processOne b := by
  unfold clearSolidLayers
  exact clearIter_eq (solidRows b) (solidRows_pairwise b) 0 (solidRows b) b
    (fun i _ => by rw [Nat.zero_add])

/-- No grid row of the board returned by `clearSolidLayers` is solid. -/
lemma clearSolidLayers_no_solid (b : Board) (j : Nat) (hj : j < ROWS) :
    isSolidRow (clearSolidLayers b) j = false := by
  rw [clearSolidLayers_eq_foldl]
  exact foldl_no_solid (solidRows b) b (solidRows_pairwise b)
    (fun j2 hj2 hs => (mem_solidRows b j2).mpr ⟨hj2, hs⟩) j hj

/-- On a board without solid grid rows, `clearSolidLayers` is the identity. -/
lemma clearSolidLayers_id (b : Board)
    (h : ∀ j, j < ROWS → isSolidRow b j = false) : clearSolidLayers b = b := by
  have hnil : solidRows b = [] := by
    unfold solidRows
    rw [List.filter_eq_nil_iff]
    intro a ha
    rw [List.mem_range] at ha
    simp [h a ha]
  unfold clearSolidLayers
  rw [hnil]
  rfl

/-! ## The timer never arms while no solid layer sits above the overdraft
line -/

lemma checkSolid_false_iff (b : Board) :
    checkSolidLayerAboveOverdraft b = false ↔ NoSolidAboveOverdraft b := by
  simp [checkSolidLayerAboveOverdraft, NoSolidAboveOverdraft, List.any_eq_false]

lemma timerPhase_skip (now : Nat) (s : GameState)
    (h : checkSolidLayerAboveOverdraft s.board = false) :
    timerPhase now s = { s with hasSolidLayerAboveOverdraft := false } := by
  unfold timerPhase
  rw [h]
  simp

lemma placeBlock_board (b : Board) (blk : Block) (n : Nat) :
    (placeBlock b blk n).board = clearSolidLayers (markedBoard b blk n) := rfl

lemma placeBlock_no_solid (b : Board) (blk : Block) (n : Nat) (j : Nat)
    (hj : j < ROWS) : isSolidRow (placeBlock b blk n).board j = false := by
  rw [placeBlock_board]
  exact clearSolidLayers_no_solid _ j hj

lemma endGame_fields (m : String) (s : GameState) :
    (endGame m s).board = s.board ∧ (endGame m s).warningTimer = s.warningTimer := by
  unfold endGame
  split <;> exact ⟨rfl, rfl⟩

lemma dropPhase_timer (t : Nat) (np : Block) (dh : Bool) (s : GameState) :
    (dropPhase t np dh s).warningTimer = s.warningTimer := by
  unfold dropPhase
  dsimp only
  repeat' split
  all_goals first
    | rfl
    | exact (endGame_fields _ _).2

lemma dropPhase_board_cases (t : Nat) (np : Block) (dh : Bool) (s : GameState) :
    (dropPhase t np dh s).board = s.board ∨
      ∃ bb, (dropPhase t np dh s).board = clearSolidLayers bb := by
  unfold dropPhase
  dsimp only
  repeat' split
  all_goals first
    | exact Or.inl rfl
    | exact Or.inr ⟨_, (endGame_fields _ _).1⟩
    | exact Or.inr ⟨_, rfl⟩

lemma gameStep_preserve (t : Nat) (np : Block) (dh : Bool) (now : Nat)
    (s : GameState) (ht : s.warningTimer = none)
    (hb : NoSolidAboveOverdraft s.board) :
    (gameStep t np dh now s).warningTimer = none ∧
      NoSolidAboveOverdraft (gameStep t np dh now s).board := by
  unfold gameStep
  by_cases hr : s.gameRunning
  · rw [if_pos hr]
    have ht2 : (dropPhase t np dh s).warningTimer = none := by
      rw [dropPhase_timer]; exact ht
    have hb2 : NoSolidAboveOverdraft (dropPhase t np dh s).board := by
      rcases dropPhase_board_cases t np dh s with h | ⟨bb, h⟩
      · rw [h]; exact hb
      · rw [h]
        intro j hj
        refine clearSolidLayers_no_solid bb j ?_
        unfold ROWS
        omega
    by_cases hr2 : (dropPhase t np dh s).gameRunning
    · rw [if_pos hr2,
        timerPhase_skip now _ ((checkSolid_false_iff _).mpr hb2)]
      exact ⟨ht2, hb2⟩
    · rw [if_neg hr2]
      exact ⟨ht2, hb2⟩
  · rw [if_neg hr]
    exact ⟨ht, hb⟩

lemma applyInput_preserve (s : GameState) (i : GInput)
    (ht : s.warningTimer = none) (hb : NoSolidAboveOverdraft s.board) :
    (applyInput s i).warningTimer = none ∧
      NoSolidAboveOverdraft (applyInput s i).board := by
  cases i with
  | tick t np dh now => exact gameStep_preserve t np dh now s ht hb
  | keyLeft =>
    simp only [applyInput]
    split <;> exact ⟨ht, hb⟩
  | keyRight =>
    simp only [applyInput]
    split <;> exact ⟨ht, hb⟩
  | keyUp =>
    simp only [applyInput]
    split <;> exact ⟨ht, hb⟩

lemma run_preserve (inputs : List GInput) : ∀ (s : GameState),
    s.warningTimer = none → NoSolidAboveOverdraft s.board →
    (run s inputs).warningTimer = none ∧
      NoSolidAboveOverdraft (run s inputs).board := by
  induction inputs with
  | nil => exact fun s ht hb => ⟨ht, hb⟩
  | cons i rest ih =>
    intro s ht hb
    have h1 := applyInput_preserve s i ht hb
    exact ih (applyInput s i) h1.1 h1.2

/-! ## Shapes: bounds, membership, rectangularity -/

lemma cellTrue_bounds {sh : List (List Bool)} {r c : Nat}
    (h : cellTrue sh r c = true) :
    r < sh.length ∧ c < (sh.getD r []).length := by
  unfold cellTrue at h
  refine ⟨?_, ?_⟩
  · by_contra hr
    have hdef : sh.getD r [] = [] := List.getD_eq_default _ _ (by omega)
    rw [hdef] at h
    simp at h
  · by_contra hc
    rw [List.getD_eq_default _ _ (by omega)] at h
    simp at h

lemma mem_shapeCoords {sh : List (List Bool)} {r c : Nat} :
    (r, c) ∈ shapeCoords sh ↔ r < sh.length ∧ c < (sh.getD r []).length := by
  unfold shapeCoords
  simp [List.mem_flatMap, List.mem_map, List.mem_range]

lemma rect_row_len {sh : List (List Bool)} (h : RectShape sh) {r : Nat}
    (hr : r < sh.length) :
    (sh.getD r []).length = (sh.getD 0 []).length := by
  apply h.2.2
  rw [List.getD_eq_getElem _ _ hr]
  exact List.getElem_mem hr

lemma rectShape_rotate90 {sh : List (List Bool)} (h : RectShape sh) :
    RectShape (rotate90 sh) := by
  obtain ⟨h1, h2, h3⟩ := h
  refine ⟨?_, ?_, ?_⟩
  · simpa [rotate90] using h2
  · unfold rotate90
    rw [List.getD_eq_getElem _ _ (by simpa [rotate90] using h2)]
    simpa using h1
  · intro row hrow
    unfold rotate90 at hrow ⊢
    rw [List.mem_map] at hrow
    obtain ⟨i, hi, rfl⟩ := hrow
    rw [List.getD_eq_getElem _ _ (by simpa using h2)]
    simp

lemma rectShape_rotateN {sh : List (List Bool)} (h : RectShape sh) :
    ∀ n, RectShape (rotateN sh n) := by
  intro n
  induction n generalizing sh with
  | zero => exact h
  | succ n ih => exact ih (rectShape_rotate90 h)

lemma rectShape_getRotatedShape {blk : Block} (h : RectShape blk.shape) :
    RectShape (getRotatedShape blk) :=
  rectShape_rotateN h _

/-! ## The marking loop of `placeBlock`: flags and written cells -/

lemma placeStep_snd (blk : Block) (n : Nat) (b : Board) (e o : Bool)
    (rc : Nat × Nat) :
    (placeStep blk n (b, e, o) rc).2.1 = (e || excessCond blk rc) ∧
      (placeStep blk n (b, e, o) rc).2.2 = (o || overdraftCond blk n rc) := by
  unfold placeStep excessCond overdraftCond cellTrue rowOf
  dsimp only
  split_ifs with h1 h2
  · constructor <;> (rw [h1]; simp [h2.1, h2.2])
  · have hd : (decide (0 ≤ Int.fdiv (blk.y + (rc.1 : Int) * (CELL_SIZE : Int)) (CELL_SIZE : Int)) &&
        decide (Int.fdiv (blk.y + (rc.1 : Int) * (CELL_SIZE : Int)) (CELL_SIZE : Int) < (ROWS : Int))) = false := by
      rcases not_and_or.mp h2 with h | h <;> simp [h]
    constructor <;> (rw [hd]; simp)
  · rw [Bool.not_eq_true] at h1
    constructor <;> (rw [h1]; simp)

lemma getCell_writeCell (b : Board) (R : Nat) (C : Int) (k : Kind) (r c : Nat) :
    getCell (writeCell b R C k) r c =
      if r = R ∧ (c : Int) = C then some k else getCell b r c := by
  unfold writeCell
  by_cases hC : 0 ≤ C
  · rw [if_pos hC]
    unfold getCell
    rw [getD_setIdx]
    by_cases hr : r = R
    · rw [if_pos hr]
      simp only [Option.getD_some]
      rw [getD_setIdx]
      by_cases hc : c = C.toNat
      · rw [if_pos hc, if_pos ⟨hr, by omega⟩]
      · rw [if_neg hc, if_neg (by rintro ⟨hh1, hh2⟩; omega)]
        rw [hr]
    · rw [if_neg hr, if_neg (by rintro ⟨hh1, hh2⟩; exact hr hh1)]
  · rw [if_neg hC, if_neg (by rintro ⟨hh1, hh2⟩; omega)]

lemma foldl_placeStep_flags (blk : Block) (n : Nat) :
    ∀ (l : List (Nat × Nat)) (b : Board) (e o : Bool),
      (l.foldl (placeStep blk n) (b, e, o)).2.1 = (e || l.any (excessCond blk)) ∧
        (l.foldl (placeStep blk n) (b, e, o)).2.2 = (o || l.any (overdraftCond blk n)) := by
  intro l
  induction l with
  | nil => intro b e o; simp
  | cons a t ih =>
    intro b e o
    rw [List.foldl_cons]
    have hsnd := placeStep_snd blk n b e o a
    have hacc : placeStep blk n (b, e, o) a =
        ((placeStep blk n (b, e, o) a).1,
          e || excessCond blk a, o || overdraftCond blk n a) := by
      refine Prod.ext rfl (Prod.ext ?_ ?_) <;> simp [hsnd.1, hsnd.2]
    rw [hacc]
    have := ih (placeStep blk n (b, e, o) a).1
      (e || excessCond blk a) (o || overdraftCond blk n a)
    constructor <;> simp [this.1, this.2, Bool.or_assoc]

lemma foldl_placeStep_board_skip (blk : Block) (n : Nat) :
    ∀ (l : List (Nat × Nat)) (b : Board) (e o : Bool) (r c : Nat),
      (∀ rc ∈ l, ¬ writesTo blk rc r c) →
      getCell ((l.foldl (placeStep blk n) (b, e, o)).1) r c = getCell b r c := by
  intro l
  induction l with
  | nil => intro b e o r c _; rfl
  | cons a t ih =>
    intro b e o r c hno
    rw [List.foldl_cons]
    have hna := hno a (List.mem_cons_self a t)
    have hstep : getCell (placeStep blk n (b, e, o) a).1 r c = getCell b r c := by
      unfold placeStep
      dsimp only
      split_ifs with h1 h2
      · rw [getCell_writeCell, if_neg]
        rintro ⟨hr, hc⟩
        exact hna ⟨h1, h2.1, h2.2, hr.symm, hc.symm⟩
      · rfl
      · rfl
    have hrest := ih (placeStep blk n (b, e, o) a).1
      (placeStep blk n (b, e, o) a).2.1 (placeStep blk n (b, e, o) a).2.2 r c
      (fun rc hrc => hno rc (List.mem_cons_of_mem a hrc))
    calc getCell ((t.foldl (placeStep blk n) (placeStep blk n (b, e, o) a)).1) r c
        = getCell (placeStep blk n (b, e, o) a).1 r c := by
          have : placeStep blk n (b, e, o) a =
              ((placeStep blk n (b, e, o) a).1, (placeStep blk n (b, e, o) a).2.1,
                (placeStep blk n (b, e, o) a).2.2) := rfl
          rw [this] at *
          exact hrest
      _ = getCell b r c := hstep

lemma foldl_placeStep_board_covered (blk : Block) (n : Nat) :
    ∀ (l : List (Nat × Nat)) (b : Board) (e o : Bool) (r c : Nat),
      (∃ rc ∈ l, writesTo blk rc r c) →
      getCell ((l.foldl (placeStep blk n) (b, e, o)).1) r c = some blk.type := by
  intro l
  induction l with
  | nil =>
    intro b e o r c hex
    obtain ⟨rc, hrc, _⟩ := hex
    exact absurd hrc (List.not_mem_nil rc)
  | cons a t ih =>
    intro b e o r c hex
    rw [List.foldl_cons]
    by_cases htw : ∃ rc ∈ t, writesTo blk rc r c
    · have : placeStep blk n (b, e, o) a =
          ((placeStep blk n (b, e, o) a).1, (placeStep blk n (b, e, o) a).2.1,
            (placeStep blk n (b, e, o) a).2.2) := rfl
      rw [this]
      exact ih _ _ _ r c htw
    · have ha : writesTo blk a r c := by
        obtain ⟨rc, hrc, hw⟩ := hex
        rcases List.mem_cons.mp hrc with h | h
        · rwa [h] at hw
        · exact absurd ⟨rc, h, hw⟩ htw
      have hskip := foldl_placeStep_board_skip blk n t
        (placeStep blk n (b, e, o) a).1 (placeStep blk n (b, e, o) a).2.1
        (placeStep blk n (b, e, o) a).2.2 r c
        (fun rc hrc hw => htw ⟨rc, hrc, hw⟩)
      have : placeStep blk n (b, e, o) a =
          ((placeStep blk n (b, e, o) a).1, (placeStep blk n (b, e, o) a).2.1,
            (placeStep blk n (b, e, o) a).2.2) := rfl
      rw [this, hskip]
      obtain ⟨h1, h2, h3, h4, h5⟩ := ha
      unfold placeStep
      dsimp only
      rw [if_pos ?_, if_pos ⟨h2, h3⟩, getCell_writeCell, if_pos ⟨h4.symm, h5.symm⟩]
      exact h1

/-! ## Consequences of a passed collision check -/

lemma checkCollision_false_facts (board : Board) (blk : Block)
    (h : checkCollision board blk 0 0 none = false) :
    0 ≤ blk.x ∧
      blk.x + (((getRotatedShape blk).getD 0 []).length : Int) ≤ (COLS : Int) ∧
      blk.y + ((getRotatedShape blk).length : Int) * (CELL_SIZE : Int) ≤ (BOARD_HEIGHT : Int) ∧
      ∀ r c, cellTrue (getRotatedShape blk) r c = true →
        0 ≤ rowOf blk r → rowOf blk r < (ROWS : Int) →
        getCellI board (rowOf blk r) (colOf blk c) = none := by
  unfold checkCollision candidateShape at h
  dsimp only at h
  simp only [add_zero] at h
  split_ifs at h with h1 h2
  simp at h
  simp only [Bool.or_eq_true, decide_eq_true_eq, not_or, not_lt] at h1
  refine ⟨h1.1, h1.2, not_lt.mp h2, ?_⟩
  intro r c hcell hr0 hr20
  obtain ⟨hrb, hcb⟩ := cellTrue_bounds hcell
  unfold cellTrue at hcell
  unfold rowOf at hr0 hr20
  unfold rowOf colOf
  refine h r hrb c ?_ ?_ hr0 hr20
  · simpa [List.getD_eq_getElem?_getD] using hcb
  · simpa [List.getD_eq_getElem?_getD] using hcell

/-! ## Row and column arithmetic of placement -/

lemma rowOf_split (blk : Block) (r : Nat) :
    rowOf blk r = blk.y.fdiv (CELL_SIZE : Int) + r := by
  unfold rowOf
  rw [Int.fdiv_eq_ediv _ (by norm_num), Int.fdiv_eq_ediv _ (by norm_num),
    Int.add_mul_ediv_right _ _ (by norm_num [CELL_SIZE])]

lemma rowOf_nonneg {blk : Block} (hy : 0 ≤ blk.y) (r : Nat) :
    0 ≤ rowOf blk r := by
  rw [rowOf_split]
  have := Int.fdiv_nonneg hy (by norm_num : (0 : Int) ≤ (CELL_SIZE : Int))
  omega

lemma rowOf_lt {blk : Block} {L : Nat} (hy : 0 ≤ blk.y)
    (hbot : blk.y + (L : Int) * (CELL_SIZE : Int) ≤ (BOARD_HEIGHT : Int))
    {r : Nat} (hr : r < L) : rowOf blk r < (ROWS : Int) := by
  rw [rowOf_split, Int.fdiv_eq_ediv _ (by norm_num)]
  simp only [CELL_SIZE, BOARD_HEIGHT, ROWS] at hbot ⊢
  omega

lemma rowOf_toNat {blk : Block} (hy : 0 ≤ blk.y) (r : Nat) :
    (rowOf blk r).toNat = blk.y.toNat / CELL_SIZE + r := by
  rw [rowOf_split, Int.fdiv_eq_ediv _ (by norm_num)]
  simp only [CELL_SIZE] at *
  omega

lemma colOf_toNat {blk : Block} (hx : 0 ≤ blk.x) (c : Nat) :
    (colOf blk c).toNat = blk.x.toNat + c := by
  unfold colOf
  omega

/-! ## The written-cell list: membership, distinctness, cardinality -/

lemma nodup_shapeCoords (sh : List (List Bool)) : (shapeCoords sh).Nodup := by
  unfold shapeCoords
  rw [List.nodup_flatMap]
  constructor
  · intro r _
    exact (List.nodup_range _).map (fun a b h => by
      simpa using congrArg Prod.snd h)
  · refine (List.pairwise_lt_range _).imp ?_
    intro r1 r2 hlt
    intro x hx1 hx2
    rw [List.mem_map] at hx1 hx2
    obtain ⟨c1, _, rfl⟩ := hx1
    obtain ⟨c2, _, h2⟩ := hx2
    have := congrArg Prod.fst h2
    simp at this
    omega

lemma length_targetList (blk : Block) :
    (targetList blk).length = countTrue (getRotatedShape blk) := by
  unfold targetList countTrue
  rw [List.length_map]

lemma nodup_targetList {blk : Block} (hx : 0 ≤ blk.x) (hy : 0 ≤ blk.y) :
    (targetList blk).Nodup := by
  unfold targetList
  refine List.Nodup.map_on ?_ ((nodup_shapeCoords _).filter _)
  intro rc1 _ rc2 _ heq
  have hr := congrArg Prod.fst heq
  have hc := congrArg Prod.snd heq
  simp only [rowOf_toNat hy, colOf_toNat hx] at hr hc
  have : rc1.1 = rc2.1 := by omega
  have : rc1.2 = rc2.2 := by omega
  exact Prod.ext (by omega) (by omega)

lemma mem_targetList {blk : Block} {r c : Nat} :
    (r, c) ∈ targetList blk ↔
      ∃ r2 c2, cellTrue (getRotatedShape blk) r2 c2 = true ∧
        (rowOf blk r2).toNat = r ∧ (colOf blk c2).toNat = c := by
  unfold targetList
  rw [List.mem_map]
  constructor
  · rintro ⟨rc, hmem, heq⟩
    rw [List.mem_filter] at hmem
    exact ⟨rc.1, rc.2, hmem.2, congrArg Prod.fst heq, congrArg Prod.snd heq⟩
  · rintro ⟨r2, c2, hcell, hrow, hcol⟩
    refine ⟨(r2, c2), ?_, ?_⟩
    · rw [List.mem_filter]
      exact ⟨mem_shapeCoords.mpr (cellTrue_bounds hcell), hcell⟩
    · simp [hrow, hcol]

/-- The board after the marking loop, cell by cell: a written position holds
the piece kind, every other position is untouched. -/
lemma getCell_markedBoard (b : Board) (blk : Block) (n : Nat) (r c : Nat) :
    getCell (markedBoard b blk n) r c =
      if ∃ rc ∈ shapeCoords (getRotatedShape blk), writesTo blk rc r c
      then some blk.type else getCell b r c := by
  unfold markedBoard placeScan
  by_cases h : ∃ rc ∈ shapeCoords (getRotatedShape blk), writesTo blk rc r c
  · rw [if_pos h]
    exact foldl_placeStep_board_covered blk n _ b false false r c h
  · rw [if_neg h]
    exact foldl_placeStep_board_skip blk n _ b false false r c
      (fun rc hrc hw => h ⟨rc, hrc, hw⟩)

lemma exists_writesTo_iff {blk : Block}
    (hy : 0 ≤ blk.y) (hx : 0 ≤ blk.x)
    (hbot : blk.y + ((getRotatedShape blk).length : Int) * (CELL_SIZE : Int) ≤
      (BOARD_HEIGHT : Int)) (r c : Nat) :
    (∃ rc ∈ shapeCoords (getRotatedShape blk), writesTo blk rc r c) ↔
      (r, c) ∈ targetList blk := by
  rw [mem_targetList]
  constructor
  · rintro ⟨rc, hmem, h1, h2, h3, h4, h5⟩
    exact ⟨rc.1, rc.2, h1, h4, by rw [h5]; simp⟩
  · rintro ⟨r2, c2, hcell, hrow, hcolv⟩
    have hb := cellTrue_bounds hcell
    refine ⟨(r2, c2), mem_shapeCoords.mpr hb, hcell, rowOf_nonneg hy r2,
      rowOf_lt hy hbot hb.1, hrow, ?_⟩
    unfold colOf at hcolv ⊢
    omega

lemma targetList_subset_grid {blk : Block}
    (hrect : RectShape (getRotatedShape blk)) (hy : 0 ≤ blk.y) (hx : 0 ≤ blk.x)
    (hwall : blk.x + (((getRotatedShape blk).getD 0 []).length : Int) ≤ (COLS : Int))
    (hbot : blk.y + ((getRotatedShape blk).length : Int) * (CELL_SIZE : Int) ≤
      (BOARD_HEIGHT : Int)) :
    ∀ p ∈ targetList blk, p.1 < ROWS ∧ p.2 < COLS := by
  rintro ⟨r, c⟩ hp
  obtain ⟨r2, c2, hcell, hrow, hcolv⟩ := mem_targetList.mp hp
  obtain ⟨hr2, hc2⟩ := cellTrue_bounds hcell
  constructor
  · have h1 := rowOf_lt hy hbot hr2
    have h2 := rowOf_nonneg hy r2
    simp only []
    omega
  · rw [rect_row_len hrect hr2] at hc2
    unfold colOf at hcolv
    simp only []
    omega

lemma targetList_empty {b : Board} {blk : Block}
    (hy : 0 ≤ blk.y)
    (hcol : checkCollision b blk 0 0 none = false) :
    ∀ p ∈ targetList blk, getCell b p.1 p.2 = none := by
  obtain ⟨hx, hwall, hbot, hempty⟩ := checkCollision_false_facts b blk hcol
  rintro ⟨r, c⟩ hp
  obtain ⟨r2, c2, hcell, hrow, hcolv⟩ := mem_targetList.mp hp
  obtain ⟨hr2, hc2⟩ := cellTrue_bounds hcell
  have h0 := rowOf_nonneg hy r2
  have h20 := rowOf_lt hy hbot hr2
  have hcc := hempty r2 c2 hcell h0 h20
  unfold getCellI at hcc
  rw [if_pos ⟨h0, by unfold colOf; omega⟩] at hcc
  have hceq : (colOf blk c2).toNat = c := hcolv
  rw [hrow, hceq] at hcc
  exact hcc

lemma gridCells_marked (b : Board) (blk : Block) (n : Nat)
    (hrect : RectShape (getRotatedShape blk)) (hy : 0 ≤ blk.y) (hx : 0 ≤ blk.x)
    (hwall : blk.x + (((getRotatedShape blk).getD 0 []).length : Int) ≤ (COLS : Int))
    (hbot : blk.y + ((getRotatedShape blk).length : Int) * (CELL_SIZE : Int) ≤
      (BOARD_HEIGHT : Int)) :
    gridCells (markedBoard b blk n) = gridCells b ∪ (targetList blk).toFinset := by
  ext p
  obtain ⟨r, c⟩ := p
  rw [Finset.mem_union]
  unfold gridCells
  rw [Finset.mem_filter, Finset.mem_filter, getCell_markedBoard, List.mem_toFinset]
  by_cases hcov : ∃ rc ∈ shapeCoords (getRotatedShape blk), writesTo blk rc r c
  · rw [if_pos hcov]
    have hmem : (r, c) ∈ targetList blk :=
      (exists_writesTo_iff hy hx hbot r c).mp hcov
    have hgrid := targetList_subset_grid hrect hy hx hwall hbot (r, c) hmem
    simp [hmem, Finset.mem_product, Finset.mem_range, hgrid.1, hgrid.2]
  · rw [if_neg hcov]
    have hnmem : (r, c) ∉ targetList blk :=
      fun hm => hcov ((exists_writesTo_iff hy hx hbot r c).mpr hm)
    simp [hnmem]

lemma cellsInGrid_marked (b : Board) (blk : Block) (n : Nat)
    (hrect : RectShape (getRotatedShape blk)) (hy : 0 ≤ blk.y)
    (hcol : checkCollision b blk 0 0 none = false) :
    cellsInGrid (markedBoard b blk n) =
      cellsInGrid b + countTrue (getRotatedShape blk) := by
  obtain ⟨hx, hwall, hbot, hempty⟩ := checkCollision_false_facts b blk hcol
  unfold cellsInGrid
  rw [gridCells_marked b blk n hrect hy hx hwall hbot]
  have hdisj : Disjoint (gridCells b) (targetList blk).toFinset := by
    rw [Finset.disjoint_left]
    rintro ⟨r, c⟩ hp hpt
    rw [List.mem_toFinset] at hpt
    have hnone := targetList_empty hy hcol (r, c) hpt
    unfold gridCells at hp
    rw [Finset.mem_filter] at hp
    rw [hnone] at hp
    simp at hp
  rw [Finset.card_union_of_disjoint hdisj,
    List.toFinset_card_of_nodup (nodup_targetList hx hy), length_targetList]

end LiqRush

/-! ## Claim theorems -/

namespace LiqRush

/-- Auxiliary: with a rotation override, `checkCollision` reads only the
shape and position of the piece, never its `rotation` field. -/
lemma checkCollision_rotation_irrel (board : Board) (blk : Block) (R : Nat)
    (ox oy : Int) (nr : Nat) :
    checkCollision board { blk with rotation := R } ox oy (some nr) =
      checkCollision board blk ox oy (some nr) := rfl

/-- C1: on a board with exactly one fully solid row (at index 19) and one
filled row above it (a single cell at row 18), `clearSolidLayers` empties
the board entirely: after shifting row 18 into slot 19 it deletes that slot
again (`game.js` lines 297-299, whose comment asserts the slot should
already be empty), so the filled-row count drops by two, not one, and no
shifted row remains at index 19.  This evaluates the code at the failing
input of the claim. -/
theorem C1_clear_single_solid_row_eval :
    filledRows exC1Board = 2 ∧
    isSolidRow exC1Board 19 = true ∧
    (∀ j, j < 19 → isSolidRow exC1Board j = false) ∧
    clearSolidLayers exC1Board = List.replicate 20 none ∧
    filledRows (clearSolidLayers exC1Board) = 0 := by decide

/-- C4: from any state whose warning timer is unarmed and whose board has no
solid row above the overdraft row, no sequence of ticks and key events ever
arms the warning deadline: `warningTimer` stays `null`, even when stacked
cells lie below the overdraft line.  (Placements clear every solid row they
create, so the gate at line 514 of `game.js` never opens.) -/
theorem C4_timer_never_armed (s : GameState) (inputs : List GInput)
    (hflag : s.hasSolidLayerAboveOverdraft = false)
    (ht : s.warningTimer = none)
    (hb : NoSolidAboveOverdraft s.board) :
    (run s inputs).warningTimer = none :=
  (run_preserve inputs s ht hb).1

/-- Witness for C4: a concrete run of two frames over a board whose only
cell lies below the overdraft line never arms the timer. -/
theorem C4_timer_never_armed_witness :
    (run exC4State
      [GInput.tick 600 exNextPiece false 100,
       GInput.tick 1200 exNextPiece false 200]).warningTimer = none :=
  C4_timer_never_armed exC4State
    [GInput.tick 600 exNextPiece false 100,
     GInput.tick 1200 exNextPiece false 200]
    rfl rfl (by decide)

/-- C5: rotation has order four: `rotate90` applied four times returns every
catalog shape to its original orientation; `getRotatedShapeWithRotation`
with rotation `r + 4` equals the one with rotation `r` for every block (the
code reduces the count modulo 4); and four successful `rotate()` calls (each
collision check passing) restore the piece exactly. -/
theorem C5_rotation_order_four :
    (∀ sh ∈ BLOCK_SHAPES, rotateN sh 4 = sh) ∧
    (∀ (blk : Block) (r : Nat),
      getRotatedShapeWithRotation blk (r + 4) = getRotatedShapeWithRotation blk r) ∧
    (∀ (board : Board) (blk : Block), blk.rotation < 4 →
      (∀ i, i < 4 →
        checkCollision board blk 0 0 (some ((blk.rotation + i + 1) % 4)) = false) →
      rotate board (rotate board (rotate board (rotate board blk))) = blk) := by
  refine ⟨by decide, ?_, ?_⟩
  · intro blk r
    unfold getRotatedShapeWithRotation
    congr 1
    omega
  · intro board blk hrot hsucc
    have e1 : rotate board blk = { blk with rotation := (blk.rotation + 1) % 4 } := by
      unfold rotate
      rw [if_neg (fun hc => Bool.false_ne_true ((hsucc 0 (by omega)).symm.trans hc))]
    have e2 : rotate board { blk with rotation := (blk.rotation + 1) % 4 } =
        { blk with rotation := (blk.rotation + 2) % 4 } := by
      unfold rotate
      dsimp only
      rw [checkCollision_rotation_irrel]
      have hm : ((blk.rotation + 1) % 4 + 1) % 4 = (blk.rotation + 2) % 4 := by omega
      rw [hm, if_neg (fun hc => Bool.false_ne_true ((hsucc 1 (by omega)).symm.trans hc))]
    have e3 : rotate board { blk with rotation := (blk.rotation + 2) % 4 } =
        { blk with rotation := (blk.rotation + 3) % 4 } := by
      unfold rotate
      dsimp only
      rw [checkCollision_rotation_irrel]
      have hm : ((blk.rotation + 2) % 4 + 1) % 4 = (blk.rotation + 3) % 4 := by omega
      rw [hm, if_neg (fun hc => Bool.false_ne_true ((hsucc 2 (by omega)).symm.trans hc))]
    have e4 : rotate board { blk with rotation := (blk.rotation + 3) % 4 } =
        { blk with rotation := (blk.rotation + 4) % 4 } := by
      unfold rotate
      dsimp only
      rw [checkCollision_rotation_irrel]
      have hm : ((blk.rotation + 3) % 4 + 1) % 4 = (blk.rotation + 4) % 4 := by omega
      rw [hm, if_neg (fun hc => Bool.false_ne_true ((hsucc 3 (by omega)).symm.trans hc))]
    rw [e1, e2, e3, e4]
    have hm4 : (blk.rotation + 4) % 4 = blk.rotation := by omega
    rw [hm4]

/-- Witness for C5: the single-cell shape returns to itself after four
rotations, and four successful rotations of a concrete free-standing piece
restore it. -/
theorem C5_rotation_order_four_witness :
    rotateN [[true]] 4 = [[true]] ∧
    rotate ([] : Board) (rotate [] (rotate [] (rotate [] exC5Piece))) = exC5Piece :=
  ⟨C5_rotation_order_four.1 [[true]] (by decide),
   C5_rotation_order_four.2.2 [] exC5Piece (by decide) (by decide)⟩

/-- C6: `checkCollision` returns true for every candidate whose leftmost
occupied column is negative or whose rightmost occupied column reaches
column 10, for every board, offset and rotation override (the wall check
fires before any stacked cell is consulted). -/
theorem C6_wall_collision (board : Board) (blk : Block)
    (offsetX offsetY : Int) (newRotation : Option Nat)
    (hrect : RectShape blk.shape)
    (hout : ∃ r c, cellTrue (candidateShape blk newRotation) r c = true ∧
      (blk.x + offsetX + (c : Int) < 0 ∨ (COLS : Int) ≤ blk.x + offsetX + (c : Int))) :
    checkCollision board blk offsetX offsetY newRotation = true := by
  obtain ⟨r, c, hcell, hor⟩ := hout
  obtain ⟨hrb, hcb⟩ := cellTrue_bounds hcell
  have hrectC : RectShape (candidateShape blk newRotation) := by
    cases newRotation with
    | none => exact rectShape_rotateN hrect _
    | some nr => exact rectShape_rotateN hrect _
  have hwidth : c < ((candidateShape blk newRotation).getD 0 []).length := by
    rw [← rect_row_len hrectC hrb]
    exact hcb
  unfold checkCollision
  dsimp only
  rw [if_pos]
  rcases hor with h | h
  · have : blk.x + offsetX < 0 := by omega
    simp [this]
  · have : (COLS : Int) <
        blk.x + offsetX + (((candidateShape blk newRotation).getD 0 []).length : Int) := by
      omega
    simp only [Bool.or_eq_true, decide_eq_true_eq]
    right
    omega

/-- Witness for C6: a two-cell horizontal piece at column 9 (rightmost
occupied column 10) collides on the empty board. -/
theorem C6_wall_collision_witness :
    checkCollision ([] : Board) exC6Piece 0 0 none = true :=
  C6_wall_collision [] exC6Piece 0 0 none (by decide)
    ⟨0, 1, by decide, Or.inr (by decide)⟩

/-- C7: `move(dx)` changes x by exactly dx when the candidate position is
collision-free and is a silent no-op otherwise; `rotate()` advances the
rotation by 1 mod 4 when the rotated shape does not collide and is a silent
no-op otherwise; neither operation ever changes any other field (no
wall-kick: rotation never moves the piece). -/
theorem C7_move_rotate_reject (board : Board) (blk : Block) (dx : Int) :
    (checkCollision board blk dx 0 none = false →
      move board blk dx = { blk with x := blk.x + dx }) ∧
    (checkCollision board blk dx 0 none = true → move board blk dx = blk) ∧
    (checkCollision board blk 0 0 (some ((blk.rotation + 1) % 4)) = false →
      rotate board blk = { blk with rotation := (blk.rotation + 1) % 4 }) ∧
    (checkCollision board blk 0 0 (some ((blk.rotation + 1) % 4)) = true →
      rotate board blk = blk) ∧
    (rotate board blk).x = blk.x ∧ (rotate board blk).y = blk.y ∧
    (rotate board blk).shape = blk.shape ∧ (rotate board blk).type = blk.type ∧
    (move board blk dx).y = blk.y ∧ (move board blk dx).rotation = blk.rotation ∧
    (move board blk dx).shape = blk.shape ∧ (move board blk dx).type = blk.type := by
  unfold move rotate
  refine ⟨fun h => by rw [if_neg (by simp [h])],
    fun h => by rw [if_pos h],
    fun h => by dsimp only; rw [if_neg (by simp [h])],
    fun h => by dsimp only; rw [if_pos h], ?_, ?_, ?_, ?_, ?_, ?_, ?_, ?_⟩ <;>
    (dsimp only; split <;> rfl)

/-- C8: the placement report booleans: `hasExcessCashBlocks` is true iff
some placed cell (a true entry whose board row passes the grid guard) has
pixel y strictly below the excess-cash line value 120, and
`hasOverdraftBlocks` is true iff some placed cell has pixel y strictly
greater than the overdraft line value 480 and the pre-increment
`blocksPlaced` counter has reached `gracePeriodBlocks`. -/
theorem C8_placement_flags (b : Board) (blk : Block) (n : Nat) :
    ((placeBlock b blk n).hasExcessCashBlocks = true ↔
      ∃ r c, cellTrue (getRotatedShape blk) r c = true ∧
        0 ≤ rowOf blk r ∧ rowOf blk r < (ROWS : Int) ∧
        blk.y + (r : Int) * (CELL_SIZE : Int) < (EXCESS_CASH_Y : Int)) ∧
    ((placeBlock b blk n).hasOverdraftBlocks = true ↔
      (∃ r c, cellTrue (getRotatedShape blk) r c = true ∧
        0 ≤ rowOf blk r ∧ rowOf blk r < (ROWS : Int) ∧
        (OVERDRAFT_Y : Int) < blk.y + (r : Int) * (CELL_SIZE : Int)) ∧
      gracePeriodBlocks ≤ n) := by
  have hflags := foldl_placeStep_flags blk n (shapeCoords (getRotatedShape blk)) b false false
  have he : (placeBlock b blk n).hasExcessCashBlocks =
      (shapeCoords (getRotatedShape blk)).any (excessCond blk) := by
    show (placeScan b blk n).2.1 = _
    unfold placeScan
    rw [hflags.1, Bool.false_or]
  have ho : (placeBlock b blk n).hasOverdraftBlocks =
      (shapeCoords (getRotatedShape blk)).any (overdraftCond blk n) := by
    show (placeScan b blk n).2.2 = _
    unfold placeScan
    rw [hflags.2, Bool.false_or]
  constructor
  · rw [he, List.any_eq_true]
    constructor
    · rintro ⟨rc, hmem, hcond⟩
      unfold excessCond at hcond
      simp only [Bool.and_eq_true, decide_eq_true_eq] at hcond
      exact ⟨rc.1, rc.2, hcond.1.1, hcond.1.2.1, hcond.1.2.2, hcond.2⟩
    · rintro ⟨r, c, h1, h2, h3, h4⟩
      refine ⟨(r, c), mem_shapeCoords.mpr (cellTrue_bounds h1), ?_⟩
      unfold excessCond
      simp only [Bool.and_eq_true, decide_eq_true_eq]
      exact ⟨⟨h1, h2, h3⟩, h4⟩
  · rw [ho, List.any_eq_true]
    constructor
    · rintro ⟨rc, hmem, hcond⟩
      unfold overdraftCond at hcond
      simp only [Bool.and_eq_true, decide_eq_true_eq] at hcond
      exact ⟨⟨rc.1, rc.2, hcond.1.1, hcond.1.2.1, hcond.1.2.2, hcond.2.1⟩, hcond.2.2⟩
    · rintro ⟨⟨r, c, h1, h2, h3, h4⟩, h5⟩
      refine ⟨(r, c), mem_shapeCoords.mpr (cellTrue_bounds h1), ?_⟩
      unfold overdraftCond
      simp only [Bool.and_eq_true, decide_eq_true_eq]
      exact ⟨⟨h1, h2, h3⟩, h4, h5⟩

/-- C10 (Variant A, modelled from the spec): a placement of `cellCount`
occupied cells moves the balance by `+2 * cellCount` (Inflow) or
`-2 * cellCount` (Outflow) clamped to `[0, 100]`, and it ends the game with
cause "balance out of range" exactly when the resulting balance is below 40
or above 60, with no grace period or timer. -/
theorem C10_variantA_balance (balance : Int) (cellCount : Nat) :
    (variantAPlace balance Kind.inflow cellCount).1 =
      max 0 (min 100 (balance + 2 * (cellCount : Int))) ∧
    (variantAPlace balance Kind.outflow cellCount).1 =
      max 0 (min 100 (balance - 2 * (cellCount : Int))) ∧
    (∀ kind, 0 ≤ (variantAPlace balance kind cellCount).1 ∧
      (variantAPlace balance kind cellCount).1 ≤ 100) ∧
    (∀ kind, (variantAPlace balance kind cellCount).2 = some msgBalanceOutOfRange ↔
      ((variantAPlace balance kind cellCount).1 < 40 ∨
        60 < (variantAPlace balance kind cellCount).1)) ∧
    (∀ kind, (variantAPlace balance kind cellCount).2 = none ↔
      (40 ≤ (variantAPlace balance kind cellCount).1 ∧
        (variantAPlace balance kind cellCount).1 ≤ 60)) := by
  refine ⟨rfl, by unfold variantAPlace variantABalanceAfter; dsimp only; rw [← sub_eq_add_neg],
    ?_, ?_, ?_⟩
  · intro kind
    unfold variantAPlace variantABalanceAfter
    cases kind <;> dsimp only <;> constructor <;> omega
  · intro kind
    unfold variantAPlace variantABalanceAfter
    cases kind <;> dsimp only <;> split_ifs with hc <;> simp [hc] <;> omega
  · intro kind
    unfold variantAPlace variantABalanceAfter
    cases kind <;> dsimp only <;> split_ifs with hc <;> simp [hc] <;> omega

/-- Witness for C7: on the empty board a left move from column 0 is
rejected unchanged, and a right move lands on column 1. -/
theorem C7_move_rotate_reject_witness :
    move ([] : Board) exSmallPiece (-1) = exSmallPiece ∧
    move ([] : Board) exSmallPiece 1 =
      { exSmallPiece with x := exSmallPiece.x + 1 } :=
  ⟨((C7_move_rotate_reject [] exSmallPiece (-1)).2.1 (by decide)),
   ((C7_move_rotate_reject [] exSmallPiece 1).1 (by decide))⟩

end LiqRush

namespace LiqRush

/-- C2 counterexample: a two-frame run refuting the claim as stated.  Frame
one (board: solid rows 14 and 15, top cell at pixel y 90) arms the deadline
at 1000 + 20000 = 21000.  Frame two lands a piece; the placement clears the
solid rows, which shifts the top cell into the safe band (pixel y 150) well
before the deadline (now = 2000 < 21000) — yet the deadline is NOT cleared
(`warningTimer` is still 21000, not null), because the timer block is
gated on `hasSolidLayerAboveOverdraft`, which the same placement made
false. -/
theorem C2_stale_deadline_counterexample :
    (run exC2State [GInput.tick 100 exNextPiece false 1000]).warningTimer =
      some 21000 ∧
    getTopBlockPosition
      (run exC2State [GInput.tick 100 exNextPiece false 1000,
        GInput.tick 700 exNextPiece false 2000]).board = some 150 ∧
    EXCESS_CASH_Y ≤ 150 ∧ 150 ≤ OVERDRAFT_Y ∧ (2000 : Nat) < 21000 ∧
    (run exC2State [GInput.tick 100 exNextPiece false 1000,
        GInput.tick 700 exNextPiece false 2000]).warningTimer = some 21000 ∧
    (run exC2State [GInput.tick 100 exNextPiece false 1000,
        GInput.tick 700 exNextPiece false 2000]).endMessage = none := by decide

/-- C2 amended: on a tick whose timer check still sees a solid layer above
the overdraft row, a top stacked cell inside the safe band clears the
deadline (`warningTimer := null`) and that tick does not end the game; when
no such solid layer remains, the timer block is skipped and an armed
deadline persists unchanged. -/
theorem C2_amended_safe_band (s : GameState) (now : Nat) :
    (∀ y : Nat, checkSolidLayerAboveOverdraft s.board = true →
      getTopBlockPosition s.board = some y →
      EXCESS_CASH_Y ≤ y → y ≤ OVERDRAFT_Y →
      (timerPhase now s).warningTimer = none ∧
        (timerPhase now s).gameRunning = s.gameRunning ∧
        (timerPhase now s).endMessage = s.endMessage) ∧
    (checkSolidLayerAboveOverdraft s.board = false →
      (timerPhase now s).warningTimer = s.warningTimer) := by
  constructor
  · intro y hsolid htop hlo hhi
    unfold timerPhase
    dsimp only
    rw [hsolid, if_pos rfl, htop]
    dsimp only
    rw [if_neg]
    · exact ⟨rfl, rfl, rfl⟩
    · simp only [Bool.or_eq_true, decide_eq_true_eq, not_or, not_lt]
      exact ⟨hhi, hlo⟩
  · intro hsolid
    rw [timerPhase_skip now s hsolid]

/-- Witness for C2: on a concrete state with an armed deadline, a solid
row 15 and the stack top at pixel y 450 (inside the safe band), the timer
phase clears the deadline and leaves the game running. -/
theorem C2_amended_safe_band_witness :
    (timerPhase 5000 exC2WitState).warningTimer = none ∧
    (timerPhase 5000 exC2WitState).endMessage = none := by
  have h := (C2_amended_safe_band exC2WitState 5000).1 450 (by decide) (by decide)
    (by decide) (by decide)
  exact ⟨h.1, h.2.2.trans (by decide)⟩

/-- C3 counterexample: placing a collision-free 1x1 piece into the single
gap of an otherwise full bottom row completes that row, and `placeBlock`
(which runs `clearSolidLayers` before returning) immediately clears it: the
covered cell (19, 9) is NOT occupied afterwards and the number of filled
cells drops from 9 to 0 instead of rising to 10. -/
theorem C3_solid_row_counterexample :
    checkCollision exC3Board exC3Piece 0 0 none = false ∧
    cellTrue (getRotatedShape exC3Piece) 0 0 = true ∧
    (rowOf exC3Piece 0).toNat = 19 ∧ (colOf exC3Piece 0).toNat = 9 ∧
    getCell (placeBlock exC3Board exC3Piece 0).board 19 9 = none ∧
    cellsInGrid exC3Board = 9 ∧
    cellsInGrid (placeBlock exC3Board exC3Piece 0).board = 0 ∧
    countTrue (getRotatedShape exC3Piece) = 1 := by decide

/-- C3 amended: for a piece at a collision-free in-bounds position, provided
the marking completes no solid row (rows completed by a placement are
immediately cleared again by the `clearSolidLayers` call inside
`placeBlock`), `placeBlock` marks every cell covered by a true entry of the
rotated shape with the piece kind, and the number of occupied grid cells
grows by exactly the number of true entries of the rotated shape. -/
theorem C3_placeBlock_marks (b : Board) (blk : Block) (n : Nat)
    (hrect : RectShape blk.shape) (hy : 0 ≤ blk.y)
    (hcol : checkCollision b blk 0 0 none = false)
    (hnosolid : ∀ j, j < ROWS → isSolidRow (markedBoard b blk n) j = false) :
    (∀ r c, cellTrue (getRotatedShape blk) r c = true →
      getCell (placeBlock b blk n).board (rowOf blk r).toNat (colOf blk c).toNat =
        some blk.type) ∧
    cellsInGrid (placeBlock b blk n).board =
      cellsInGrid b + countTrue (getRotatedShape blk) := by
  have hfinal : (placeBlock b blk n).board = markedBoard b blk n := by
    rw [placeBlock_board, clearSolidLayers_id _ hnosolid]
  obtain ⟨hx, hwall, hbot, hempty⟩ := checkCollision_false_facts b blk hcol
  have hrectR := rectShape_getRotatedShape hrect
  constructor
  · intro r c hcell
    obtain ⟨hrb, hcb⟩ := cellTrue_bounds hcell
    have hcov : ∃ rc ∈ shapeCoords (getRotatedShape blk),
        writesTo blk rc (rowOf blk r).toNat (colOf blk c).toNat := by
      refine ⟨(r, c), mem_shapeCoords.mpr ⟨hrb, hcb⟩, hcell, rowOf_nonneg hy r,
        rowOf_lt hy hbot hrb, rfl, ?_⟩
      unfold colOf
      omega
    rw [hfinal, getCell_markedBoard, if_pos hcov]
  · rw [hfinal]
    exact cellsInGrid_marked b blk n hrectR hy hcol

/-- Witness for C3: a 1x1 piece landing at the bottom-left corner of the
empty board marks exactly its one covered cell. -/
theorem C3_placeBlock_marks_witness :
    getCell (placeBlock ([] : Board) exSmallPiece 0).board
        (rowOf exSmallPiece 0).toNat (colOf exSmallPiece 0).toNat =
      some Kind.inflow ∧
    cellsInGrid (placeBlock ([] : Board) exSmallPiece 0).board =
      cellsInGrid ([] : Board) + countTrue (getRotatedShape exSmallPiece) := by
  have h := C3_placeBlock_marks [] exSmallPiece 0 (by decide) (by decide)
    (by decide) (by decide)
  exact ⟨h.1 0 0 (by decide), h.2⟩

end LiqRush

namespace LiqRush

lemma inBounds_iff (b : Board) :
    InBounds b = true ↔
      (b.length ≤ ROWS ∧ ∀ i r, getRow b i = some r → r.length ≤ COLS) := by
  unfold InBounds
  rw [Bool.and_eq_true, decide_eq_true_eq, List.all_eq_true]
  constructor
  · rintro ⟨h1, h2⟩
    refine ⟨h1, ?_⟩
    intro i r hir
    have hilen : i < b.length := by
      by_contra hcon
      rw [getRow, List.getD_eq_default _ _ (by omega)] at hir
      exact Option.noConfusion hir
    have hmem : some r ∈ b := by
      rw [getRow, List.getD_eq_getElem _ _ hilen] at hir
      rw [← hir]
      exact List.getElem_mem hilen
    simpa using h2 (some r) hmem
  · rintro ⟨h1, h2⟩
    refine ⟨h1, ?_⟩
    intro orow hmem
    cases orow with
    | none => rfl
    | some r =>
      obtain ⟨i, hlen, hEq⟩ := List.mem_iff_getElem.mp hmem
      have hgr : getRow b i = some r := by
        rw [getRow, List.getD_eq_getElem _ _ hlen, hEq]
      simpa using h2 i r hgr

lemma length_shiftRowsAbove : ∀ (n : Nat) (b : Board),
    (shiftRowsAbove b n).length ≤ max b.length (n + 1) := by
  intro n
  induction n with
  | zero =>
    intro b
    exact le_max_left _ _
  | succ n ih =>
    intro b
    rw [shiftRowsAbove]
    cases hbn : getRow b n with
    | none =>
      dsimp only
      have := ih b
      omega
    | some r =>
      dsimp only
      have := ih (delIdx none (setIdx none b (n + 1) (some r)) n)
      rw [length_delIdx, length_setIdx] at this
      omega

lemma length_processOne (b : Board) (c : Nat) :
    (processOne b c).length ≤ max b.length (c + 1) := by
  unfold processOne
  dsimp only
  split
  · rw [length_delIdx]
    exact length_shiftRowsAbove c b
  · exact length_shiftRowsAbove c b

lemma processOne_rows (b : Board) (c : Nat)
    (hprop : ∀ i r, getRow b i = some r → r.length ≤ COLS) :
    ∀ i r, getRow (processOne b c) i = some r → r.length ≤ COLS := by
  intro i r hir
  by_cases hic : i = c
  · rw [hic, processOne_cleared] at hir
    exact Option.noConfusion hir
  · rcases processOne_source b c i hic with h | ⟨_, h⟩ | ⟨_, _, h⟩
    · rw [h] at hir
      exact Option.noConfusion hir
    · rw [h] at hir
      exact hprop i r hir
    · rw [h] at hir
      exact hprop (i - 1) r hir

lemma inBoundsP_foldl_processOne : ∀ (l : List Nat) (b : Board),
    (∀ x ∈ l, x < ROWS) → b.length ≤ ROWS →
    (∀ i r, getRow b i = some r → r.length ≤ COLS) →
    (l.foldl processOne b).length ≤ ROWS ∧
      ∀ i r, getRow (l.foldl processOne b) i = some r → r.length ≤ COLS := by
  intro l
  induction l with
  | nil => exact fun b _ h1 h2 => ⟨h1, h2⟩
  | cons c t ih =>
    intro b hmem h1 h2
    rw [List.foldl_cons]
    refine ih (processOne b c) (fun x hx => hmem x (List.mem_cons_of_mem _ hx))
      ?_ (processOne_rows b c h2)
    have hlen := length_processOne b c
    have hc := hmem c (List.mem_cons_self c t)
    unfold ROWS at *
    omega

lemma inBounds_clearSolidLayers (b : Board) (hb : InBounds b = true) :
    InBounds (clearSolidLayers b) = true := by
  obtain ⟨h1, h2⟩ := (inBounds_iff b).mp hb
  rw [inBounds_iff, clearSolidLayers_eq_foldl]
  exact inBoundsP_foldl_processOne (solidRows b) b
    (fun x hx => ((mem_solidRows b x).mp hx).1) h1 h2

lemma writeCell_inBoundsP {b : Board} {R : Nat} {C : Int} {k : Kind}
    (h1 : b.length ≤ ROWS) (h2 : ∀ i r, getRow b i = some r → r.length ≤ COLS)
    (hR : R < ROWS) (hC : C < (COLS : Int)) :
    (writeCell b R C k).length ≤ ROWS ∧
      ∀ i r, getRow (writeCell b R C k) i = some r → r.length ≤ COLS := by
  unfold writeCell
  split_ifs with h0
  · constructor
    · rw [length_setIdx]
      unfold ROWS at *
      omega
    · intro i r hir
      rw [getRow_setIdx] at hir
      by_cases hiR : i = R
      · rw [if_pos hiR] at hir
        injection hir with hir
        rw [← hir, length_setIdx]
        have holdrow : ((b.getD R none).getD []).length ≤ COLS := by
          cases hbr : getRow b R with
          | none =>
            rw [getRow] at hbr
            rw [hbr]
            simp [COLS]
          | some rr =>
            have := h2 R rr hbr
            rw [getRow] at hbr
            rw [hbr]
            simpa using this
        unfold COLS at *
        omega
      · rw [if_neg hiR] at hir
        exact h2 i r hir
  · exact ⟨h1, h2⟩

lemma inBoundsP_foldl_placeStep (blk : Block) (n : Nat) :
    ∀ (l : List (Nat × Nat)) (b : Board) (e o : Bool),
      (∀ rc ∈ l, cellTrue (getRotatedShape blk) rc.1 rc.2 = true →
        colOf blk rc.2 < (COLS : Int)) →
      b.length ≤ ROWS → (∀ i r, getRow b i = some r → r.length ≤ COLS) →
      ((l.foldl (placeStep blk n) (b, e, o)).1.length ≤ ROWS ∧
        ∀ i r, getRow ((l.foldl (placeStep blk n) (b, e, o)).1) i = some r →
          r.length ≤ COLS) := by
  intro l
  induction l with
  | nil => exact fun b e o _ h1 h2 => ⟨h1, h2⟩
  | cons a t ih =>
    intro b e o hcols h1 h2
    rw [List.foldl_cons]
    have hstep : (placeStep blk n (b, e, o) a).1.length ≤ ROWS ∧
        ∀ i r, getRow (placeStep blk n (b, e, o) a).1 i = some r →
          r.length ≤ COLS := by
      unfold placeStep
      dsimp only
      split_ifs with ht hg
      · have hRrange : (Int.fdiv (blk.y + (a.1 : Int) * (CELL_SIZE : Int))
            (CELL_SIZE : Int)).toNat < ROWS := by
          have := hg.1
          have := hg.2
          unfold ROWS at *
          omega
        exact writeCell_inBoundsP h1 h2 hRrange
          (hcols a (List.mem_cons_self a t) ht)
      · exact ⟨h1, h2⟩
      · exact ⟨h1, h2⟩
    have heta : placeStep blk n (b, e, o) a =
        ((placeStep blk n (b, e, o) a).1, (placeStep blk n (b, e, o) a).2.1,
          (placeStep blk n (b, e, o) a).2.2) := rfl
    rw [heta]
    exact ih (placeStep blk n (b, e, o) a).1 _ _
      (fun rc hrc => hcols rc (List.mem_cons_of_mem _ hrc)) hstep.1 hstep.2

/-- C9: the board mutators preserve the grid bounds, and placement never
overwrites an occupied cell: `clearSolidLayers` keeps a board of at most 20
rows of width at most 10; for a collision-free in-bounds piece, `placeBlock`
does too, and every cell occupied before the marking loop still holds its
original block afterwards; the `move`/`rotate` key handlers never touch the
grid at all (in the model they produce only a new piece).  Spawning and the
tick fall only replace `currentPiece`, so the grid is mutated by `placeBlock`
and `clearSolidLayers` alone. -/
theorem C9_invariant_preservation (b : Board) (blk : Block) (n : Nat)
    (s : GameState) :
    (InBounds b = true → InBounds (clearSolidLayers b) = true) ∧
    (RectShape blk.shape → 0 ≤ blk.y → checkCollision b blk 0 0 none = false →
      (InBounds b = true → InBounds (placeBlock b blk n).board = true) ∧
      (∀ r c k, getCell b r c = some k →
        getCell (markedBoard b blk n) r c = some k)) ∧
    ((applyInput s GInput.keyLeft).board = s.board ∧
      (applyInput s GInput.keyRight).board = s.board ∧
      (applyInput s GInput.keyUp).board = s.board) := by
  refine ⟨inBounds_clearSolidLayers b, ?_, ?_, ?_, ?_⟩
  · intro hrect hy hcol
    obtain ⟨hx, hwall, hbot, hempty⟩ := checkCollision_false_facts b blk hcol
    have hrectR := rectShape_getRotatedShape hrect
    constructor
    · intro hb
      obtain ⟨h1, h2⟩ := (inBounds_iff b).mp hb
      rw [placeBlock_board]
      refine inBounds_clearSolidLayers _ ?_
      rw [inBounds_iff]
      refine inBoundsP_foldl_placeStep blk n _ b false false ?_ h1 h2
      intro rc hrc ht
      obtain ⟨hrb, hcb⟩ := cellTrue_bounds ht
      rw [rect_row_len hrectR hrb] at hcb
      unfold colOf
      omega
    · intro r c k hk
      rw [getCell_markedBoard]
      rw [if_neg]
      · exact hk
      · intro hcov
        have hmem : (r, c) ∈ targetList blk :=
          (exists_writesTo_iff hy hx hbot r c).mp hcov
        have := targetList_empty hy hcol (r, c) hmem
        rw [hk] at this
        exact Option.noConfusion this
  · simp only [applyInput]
    split <;> rfl
  · simp only [applyInput]
    split <;> rfl
  · simp only [applyInput]
    split <;> rfl

/-- Witness for C9: the clearing pass on a concrete in-bounds board stays
in bounds, and a concrete collision-free placement stays in bounds while
leaving the nine already-occupied cells of the bottom row unchanged. -/
theorem C9_invariant_preservation_witness :
    InBounds (clearSolidLayers exC1Board) = true ∧
    InBounds (placeBlock exC3Board exC3Piece 0).board = true ∧
    getCell (markedBoard exC3Board exC3Piece 0) 19 0 = some Kind.inflow := by
  refine ⟨(C9_invariant_preservation exC1Board exSmallPiece 0 exC4State).1
      (by decide), ?_, ?_⟩
  · exact ((C9_invariant_preservation exC3Board exC3Piece 0 exC4State).2.1
      (by decide) (by decide) (by decide)).1 (by decide)
  · exact ((C9_invariant_preservation exC3Board exC3Piece 0 exC4State).2.1
      (by decide) (by decide) (by decide)).2 19 0 Kind.inflow (by decide)

end LiqRush
